import Mathlib

/-!
Verification development for the `rvff` rap-config decoder
(`src/rap/parser.rs`, `src/rap/config.rs`).

The development shallowly embeds, in order:
* an exact model of 32-bit IEEE-754 float values and of Rust's
  `str::parse::<f32>` (decimal to nearest-even binary32), used by the
  lexer's numeric-token guard and the grammar parser's value rule;
* the lexer (`parser.rs::lexer`), as a deterministic ordered-choice
  (PEG-style) combinator grammar over characters, matching the chumsky
  combinators used by the source, with skip-one-character recovery;
* the grammar parser (`parser.rs::entry_parser`) over the token stream;
* the decode entry points of `config.rs` over a byte-cursor model.

Machine integers are modelled as `Int`/`Nat`; f32 values are modelled
exactly as dyadic rationals (unreduced `Int`/`Nat` pairs) plus infinities,
so every definition is executable and kernel-reducible.
-/

namespace Rvff

/-! ## Exact model of 32-bit floats

A finite f32 value is an exactly-representable rational, stored as an
unreduced pair `num / den` with `den > 0` a power of two by construction.
`NaN` never arises on the numeric strings the lexer produces, so it is
not represented. -/

inductive Float32 where
  | finite (num : Int) (den : Nat)
  | inf (negative : Bool)

/-- Round-to-nearest, ties-to-even, of the rational `a / b` (with `b > 0`). -/
def rneDiv (a : Int) (b : Nat) : Int :=
  let fl := Int.fdiv a (Int.ofNat b)
  let r := a - fl * (Int.ofNat b)
  if 2 * r < (Int.ofNat b) then fl
  else if (Int.ofNat b) < 2 * r then fl + 1
  else if fl % 2 = 0 then fl else fl + 1

/-- Round-to-nearest-even of `a / b * 2 ^ k`. -/
def rneShift (a : Int) (b : Nat) (k : Int) : Int :=
  if 0 ≤ k then rneDiv (a * (Int.ofNat (2 ^ k.toNat))) b
  else rneDiv a (b * 2 ^ (-k).toNat)

/-- Fueled floor-log2 search: `acc` accumulates the exponent while the
fraction `n / d` is scaled into `[1, 2)`. -/
def fl2go : Nat → Nat → Nat → Int → Int
  | 0, _, _, acc => acc
  | f + 1, n, d, acc =>
    if n < d then fl2go f (2 * n) d (acc - 1)
    else if 2 * d ≤ n then fl2go f n (2 * d) (acc + 1)
    else acc

/-- Floor of log2 of `n / d` for positive `n`, `d`. -/
def floorLog2 (n d : Nat) : Int :=
  fl2go (n + d + 2) n d 0

/-- Value `m * 2 ^ (e - 23)` as an exact `Float32` (normal-range helper). -/
def finVal (m : Int) (e : Int) : Float32 :=
  if e ≤ 23 then .finite m (2 ^ (23 - e).toNat)
  else .finite (m * Int.ofNat (2 ^ (e - 23).toNat)) 1

/-- Round the positive rational `n / d` to the nearest binary32 value
(nearest-even; overflow to infinity, underflow through subnormals to zero),
exactly as Rust's `f32` decimal parsing does. -/
def roundF32pos (n : Int) (d : Nat) : Float32 :=
  let e := floorLog2 n.natAbs d
  if e < -126 then
    .finite (rneDiv (n * Int.ofNat (2 ^ 149)) d) (2 ^ 149)
  else if 127 < e then
    .inf false
  else
    let m := rneShift n d (23 - e)
    if m = 2 ^ 24 then
      (if 127 < e + 1 then Float32.inf false else finVal (2 ^ 23) (e + 1))
    else finVal m e

def Float32.negate : Float32 → Float32
  | .finite n d => .finite (-n) d
  | .inf b => .inf (!b)

/-- List of the leading decimal digits of a character list. -/
def takeDigits : List Char → List Char × List Char
  | [] => ([], [])
  | c :: t =>
    if c.isDigit then
      let p := takeDigits t
      (c :: p.1, p.2)
    else ([], c :: t)

def digitsToNat (ds : List Char) : Nat :=
  ds.foldl (fun acc c => acc * 10 + (c.toNat - 48)) 0

/-- Build the f32 value of `sign * ipart.fpart * 10 ^ ex`. -/
def mkF32 (neg : Bool) (ip fp : List Char) (ex : Int) : Float32 :=
  let mant : Nat := digitsToNat (ip ++ fp)
  let ex' : Int := ex - Int.ofNat fp.length
  if mant = 0 then .finite 0 1
  else
    let f :=
      if 0 ≤ ex' then roundF32pos (Int.ofNat (mant * 10 ^ ex'.toNat)) 1
      else roundF32pos (Int.ofNat mant) (10 ^ (-ex').toNat)
    if neg then f.negate else f

/-- Model of Rust's `str::parse::<f32>` on decimal inputs: optional sign,
digits with optional fraction and exponent, full consumption required.
(The `inf` / `NaN` literal forms of Rust's grammar are omitted: the lexer
only ever re-parses digit-led strings, which never take those forms.) -/
def parseF32 (s : String) : Option Float32 :=
  let cs := s.toList
  let sgn : Bool × List Char :=
    match cs with
    | '+' :: t => (false, t)
    | '-' :: t => (true, t)
    | _ => (false, cs)
  let ipp := takeDigits sgn.2
  let fpp : List Char × List Char :=
    match ipp.2 with
    | '.' :: t => takeDigits t
    | _ => ([], ipp.2)
  if ipp.1 = [] ∧ fpp.1 = [] then none
  else
    match fpp.2 with
    | [] => some (mkF32 sgn.1 ipp.1 fpp.1 0)
    | e :: t =>
      if e = 'e' ∨ e = 'E' then
        let esgn : Bool × List Char :=
          match t with
          | '+' :: r => (false, r)
          | '-' :: r => (true, r)
          | _ => (false, t)
        let edd := takeDigits esgn.2
        if edd.1 = [] ∨ edd.2 ≠ [] then none
        else
          some (mkF32 sgn.1 ipp.1 fpp.1
            (if esgn.1 then -(Int.ofNat (digitsToNat edd.1))
             else Int.ofNat (digitsToNat edd.1)))
      else none

/-- Model of `f32::fract() != 0.0`: a finite value has a non-zero
fractional part iff it is not an integer; infinity's fract is NaN, and
`NaN != 0.0` holds. -/
def Float32.fractNZ : Float32 → Bool
  | .finite n d => decide (n % (Int.ofNat d) ≠ 0)
  | .inf _ => true

/-- Model of Rust's saturating `as i32` cast on a (non-NaN) f32. -/
def Float32.asI32 : Float32 → Int
  | .finite n d =>
    let t := Int.tdiv n (Int.ofNat d)
    if t < -(2 ^ 31) then -(2 ^ 31)
    else if (2 ^ 31 - 1) < t then 2 ^ 31 - 1
    else t
  | .inf true => -(2 ^ 31)
  | .inf false => 2 ^ 31 - 1

/-! ## Ordered-choice parser combinators

The source builds its lexer and grammar parser from chumsky combinators.
Chumsky's runtime behaviour on these combinators is deterministic
ordered choice with full backtracking on alternative failure and greedy
repetition (PEG-style); that is exactly the `Option`-with-rest semantics
below.  `ι` is the input element type (characters for the lexer, spanned
tokens for the grammar parser). -/

def P (ι α : Type) : Type := List ι → Option (α × List ι)

def pPure (a : α) : P ι α := fun inp => some (a, inp)

/-- `filter` in chumsky: consume one element satisfying the predicate. -/
def pSatisfy (f : ι → Bool) : P ι ι := fun inp =>
  match inp with
  | [] => none
  | c :: rest => if f c then some (c, rest) else none

/-- `just` on a single element. -/
def pJust [BEq ι] (c : ι) : P ι ι := pSatisfy (fun x => x == c)

/-- `just` on a literal sequence of elements. -/
def pJustSeq [BEq ι] (s : List ι) : P ι (List ι) := fun inp =>
  if s.isPrefixOf inp then some (s, inp.drop s.length) else none

def pMap (f : α → β) (p : P ι α) : P ι β := fun inp =>
  (p inp).map (fun r => (f r.1, r.2))

/-- `then`: sequence two parsers, pairing the outputs. -/
def pThen (p : P ι α) (q : P ι β) : P ι (α × β) := fun inp =>
  (p inp).bind (fun r => (q r.2).map (fun r' => ((r.1, r'.1), r'.2)))

def pIgnoreThen (p : P ι α) (q : P ι β) : P ι β :=
  pMap Prod.snd (pThen p q)

def pThenIgnore (p : P ι α) (q : P ι β) : P ι α :=
  pMap Prod.fst (pThen p q)

/-- `or`: try the first alternative; on failure rewind and try the second. -/
def pOr (p q : P ι α) : P ι α := fun inp =>
  match p inp with
  | some r => some r
  | none => q inp

/-- `or_not`. -/
def pOrNot (p : P ι α) : P ι (Option α) := fun inp =>
  match p inp with
  | some r => some (some r.1, r.2)
  | none => some (none, inp)

/-- Greedy repetition loop (stops on failure or lack of progress). -/
def pRepGo (p : P ι α) : Nat → List ι → (List α × List ι)
  | 0, inp => ([], inp)
  | f + 1, inp =>
    match p inp with
    | some (a, rest) =>
      if rest.length < inp.length then
        let r := pRepGo p f rest
        (a :: r.1, r.2)
      else ([], inp)
    | none => ([], inp)

/-- `repeated` (zero or more, greedy). -/
def pRepeated (p : P ι α) : P ι (List α) := fun inp =>
  some (pRepGo p (inp.length + 1) inp)

/-- `separated_by(sep).at_least(1)`: item (sep item)*, greedy. -/
def pSepGo (p : P ι α) (sep : P ι β) : Nat → List ι → (List α × List ι)
  | 0, inp => ([], inp)
  | f + 1, inp =>
    match pThen sep p inp with
    | some ((_, a), rest) =>
      if rest.length < inp.length then
        let r := pSepGo p sep f rest
        (a :: r.1, r.2)
      else ([], inp)
    | none => ([], inp)

def pSepBy1 (p : P ι α) (sep : P ι β) : P ι (List α) := fun inp =>
  match p inp with
  | some (a, rest) =>
    let r := pSepGo p sep (rest.length + 1) rest
    some (a :: r.1, r.2)
  | none => none

/-- `separated_by(sep).allow_trailing()` (zero or more items, optional
trailing separator). -/
def pSepByTrailing (p : P ι α) (sep : P ι β) : P ι (List α) := fun inp =>
  match p inp with
  | some (a, rest) =>
    let r := pSepGo p sep (rest.length + 1) rest
    match sep r.2 with
    | some (_, rest') => some (a :: r.1, rest')
    | none => some (a :: r.1, r.2)
  | none => some ([], inp)

/-- `take_until(q)`: consume arbitrary elements until `q` succeeds
(consuming `q` as well). -/
def pTakeUntilGo (q : P ι α) : Nat → List ι → Option ((List ι × α) × List ι)
  | 0, _ => none
  | f + 1, inp =>
    match q inp with
    | some (a, rest) => some (([], a), rest)
    | none =>
      match inp with
      | [] => none
      | c :: rest =>
        (pTakeUntilGo q f rest).map (fun r => ((c :: r.1.1, r.1.2), r.2))

def pTakeUntil (q : P ι α) : P ι (List ι × α) := fun inp =>
  pTakeUntilGo q (inp.length + 1) inp

/-! ## Lexer (`parser.rs::lexer`) -/

/-- Half-open character range of a token or node (`type Span = Range<usize>`). -/
abbrev Span : Type := Nat × Nat

inductive Token where
  | Num (n : String)
  | Str (s : String)
  | Ctrl (c : Char)
  | Ident (s : String)
  | Class
  | Delete
  | StringConcat
deriving DecidableEq

/-- `text::digits(10)`: one or more decimal digits. -/
def pDigits : P Char (List Char) := fun inp =>
  match pRepeated (pSatisfy Char.isDigit) inp with
  | some (ds, rest) => if ds = [] then none else some (ds, rest)
  | none => none

/-- `text::int(10)`: `0` alone, or a nonzero digit followed by digits
(chumsky rejects leading zeroes). -/
def pInt10 : P Char (List Char) :=
  pOr
    (pMap (fun r => r.1 :: r.2)
      (pThen (pSatisfy (fun c => c.isDigit && c != '0'))
        (pRepeated (pSatisfy Char.isDigit))))
    (pMap (fun c => [c]) (pJust '0'))

/-- `frac = just('.').chain(text::digits(10))`. -/
def pFrac : P Char (List Char) :=
  pMap (fun r => r.1 :: r.2) (pThen (pJust '.') pDigits)

/-- `exp = (e|E) then (+|-)? then digits`. -/
def pExpPart : P Char (List Char) :=
  pMap
    (fun r =>
      r.1.1 :: ((match r.1.2 with | some s => [s] | none => []) ++ r.2))
    (pThen
      (pThen (pOr (pJust 'e') (pJust 'E')) (pOrNot (pOr (pJust '+') (pJust '-'))))
      pDigits)

/-- Raw text of a numeric token:
`just('-').or_not().chain(int).chain(frac.or_not()).chain(exp.or_not())`. -/
def pNumText : P Char (List Char) :=
  pMap
    (fun r =>
      (match r.1.1.1 with | some c => [c] | none => []) ++ r.1.1.2 ++ r.1.2 ++ r.2)
    (pThen
      (pThen (pThen (pOrNot (pJust '-')) pInt10)
        (pMap (fun o => o.getD []) (pOrNot pFrac)))
      (pMap (fun o => o.getD []) (pOrNot pExpPart)))

/-- Numeric token rule: keep the raw text; if it does not re-parse as an
f32 the token demotes to a string literal. -/
def pNum : P Char Token :=
  pMap
    (fun cs =>
      let str := String.mk cs
      if (parseF32 str).isSome then Token.Num str else Token.Str str)
    pNumText

/-- One content character of a string literal: any character other than
`"`, or the escaped quote `""`. -/
def strContentP : P Char Char :=
  pOr (pSatisfy (fun c => c != '"')) (pMap (fun _ => '"') (pJustSeq ['"', '"']))

/-- One string literal: `"` … `"` where an internal `""` is an escaped
quote. -/
def pStrLit : P Char Token :=
  pMap (fun cs => Token.Str (String.mk cs))
    (pThenIgnore (pIgnoreThen (pJust '"') (pRepeated strContentP)) (pJust '"'))

/-- Consume leading whitespace (`padded()`'s padding). -/
def skipWs : List Char → List Char
  | [] => []
  | c :: t => if c.isWhitespace then skipWs t else c :: t

/-- `padded()`: run the parser with whitespace allowed on both sides. -/
def pPadded (p : P Char α) : P Char α := fun inp =>
  match p (skipWs inp) with
  | some (a, rest) => some (a, skipWs rest)
  | none => none

/-- `string_concat = just("\\n").padded()`. -/
def pStringConcat : P Char Token :=
  pPadded (pMap (fun _ => Token.StringConcat) (pJustSeq ['\\', 'n']))

/-- Join of a run of `Str` tokens with newline characters (the map inside
`strs` in the source). -/
def joinStrTokens (ts : List Token) : String :=
  String.intercalate "\n" (ts.map (fun t => match t with | Token.Str s => s | _ => ""))

/-- `strs`: string literals separated by padded `\n` joined with newlines,
falling back to a single string literal. -/
def pStrs : P Char Token :=
  pOr (pMap (fun ts => Token.Str (joinStrTokens ts)) (pSepBy1 pStrLit pStringConcat))
    pStrLit

/-- The control characters `one_of("[]{};,:=")` accepts. -/
def ctrlChars : List Char := ['[', ']', '\x7b', '\x7d', ';', ',', ':', '=']

def pCtrl : P Char Token := pMap Token.Ctrl (pSatisfy (fun c => ctrlChars.contains c))

/-- `text::ident()`: a letter or `_`, then letters, digits or `_`
(ASCII here; chumsky accepts all Unicode alphabetics, which no input of
interest uses). -/
def pIdentText : P Char (List Char) :=
  pMap (fun r => r.1 :: r.2)
    (pThen (pSatisfy (fun c => c.isAlpha || c == '_'))
      (pRepeated (pSatisfy (fun c => c.isAlphanum || c == '_'))))

/-- Identifier rule with keyword reclassification. -/
def pIdent : P Char Token :=
  pMap
    (fun cs =>
      let s := String.mk cs
      if s = "class" then Token.Class
      else if s = "delete" then Token.Delete
      else Token.Ident s)
    pIdentText

/-- `token = num.or(strs).or(ctrl).or(ident)`. -/
def pToken : P Char Token := pOr pNum (pOr pStrs (pOr pCtrl pIdent))

/-- `comment = just("//").then(take_until(just('\n'))).padded()`. -/
def pComment : P Char Unit :=
  pPadded (pMap (fun _ => ()) (pThen (pJustSeq ['/', '/']) (pTakeUntil (pJust '\n'))))

/-- `ml_comment = just("/*").then(take_until(just("*/"))).padded()`. -/
def pMlComment : P Char Unit :=
  pPadded (pMap (fun _ => ()) (pThen (pJustSeq ['/', '*']) (pTakeUntil (pJustSeq ['*', '/']))))

/-- Padding before a token, per
`token.padded_by(comment.repeated()).padded_by(ml_comment.repeated()).padded()`:
outermost whitespace, then padded block comments, then padded line
comments. -/
def skipLead (cs : List Char) : List Char :=
  let cs1 := skipWs cs
  let cs2 := match pRepeated pMlComment cs1 with | some r => r.2 | none => cs1
  match pRepeated pComment cs2 with | some r => r.2 | none => cs2

/-- Padding after a token: padded line comments, then padded block
comments, then whitespace. -/
def skipTrail (cs : List Char) : List Char :=
  let cs1 := match pRepeated pComment cs with | some r => r.2 | none => cs
  let cs2 := match pRepeated pMlComment cs1 with | some r => r.2 | none => cs1
  skipWs cs2

/-- One lexer or grammar diagnostic: a span plus a reason (their rendering
through ariadne is the external diagnostics formatter's job; the model
keeps the span-and-reason boundary the spec prescribes). -/
structure Diag where
  span : Span
  msg : String
deriving DecidableEq

/-- One step of the lexing loop: skip padding; `none` when the input is
exhausted, otherwise either a token (with its span) or — the
`skip_then_retry_until([])` recovery — a diagnostic for one skipped
character, together with the rest of the input and the new position. -/
def lexStep (cs : List Char) (pos : Nat) :
    Option (((Token × Span) ⊕ Diag) × List Char × Nat) :=
  match skipLead cs with
  | [] => none
  | c :: cs' =>
    let pos1 := pos + (cs.length - (c :: cs').length)
    match pToken (c :: cs') with
    | some (tok, rest) =>
      let pos2 := pos1 + ((c :: cs').length - rest.length)
      let rest2 := skipTrail rest
      let pos3 := pos2 + (rest.length - rest2.length)
      some (Sum.inl (tok, (pos1, pos2)), rest2, pos3)
    | none =>
      some (Sum.inr ⟨(pos1, pos1 + 1), "unexpected character"⟩, cs', pos1 + 1)

/-- Main lexing loop. -/
def lexGo : Nat → List Char → Nat → List (Token × Span) → List Diag →
    List (Token × Span) × List Diag
  | 0, _, _, acc, diags => (acc.reverse, diags.reverse)
  | f + 1, cs, pos, acc, diags =>
    match lexStep cs pos with
    | none => (acc.reverse, diags.reverse)
    | some (Sum.inl tsp, cs', pos') => lexGo f cs' pos' (tsp :: acc) diags
    | some (Sum.inr d, cs', pos') => lexGo f cs' pos' acc (d :: diags)

/-- Lexer model (`lexer()` run through `parse_recovery`): total; returns
the span-tagged token sequence and all collected diagnostics. -/
def lexer (src : String) : List (Token × Span) × List Diag :=
  lexGo (src.toList.length + 1) src.toList 0 [] []

/-! ## Grammar parser (`parser.rs::entry_parser`)

The parser consumes the lexer's span-tagged token stream.  `ValueExpr`
and `EntryExpr` mirror the source AST (including the spans the source
keeps inside `Spanned` nodes). -/

abbrev TP (α : Type) : Type := P (Token × Span) α

inductive ValueExpr where
  | long (i : Int)
  | float (f : Float32)
  | str (s : String)
  | array (xs : List (ValueExpr × Span))

inductive EntryExpr where
  | prop (name : String) (value : ValueExpr × Span)
  | cls (name : String) (parent : Option String) (entries : List (EntryExpr × Span))
  | ext (name : String)
  | del (name : String)

/-- `select!`-style parser: consume one token the function accepts. -/
def tSelect (f : Token → Option α) : TP α := fun inp =>
  match inp with
  | [] => none
  | (t, _) :: rest =>
    match f t with
    | some a => some (a, rest)
    | none => none

/-- `just` on a token, ignoring the span tag. -/
def tJust (t : Token) : TP Token :=
  pMap Prod.fst (pSatisfy (fun x : Token × Span => x.1 == t))

/-- Span of the tokens a parser consumed (`map_with_span` over a token
stream: from the first consumed token's start to the last one's end). -/
def consumedSpan (inp rest : List (Token × Span)) : Span :=
  match inp with
  | [] => (0, 0)
  | (_, sp) :: _ =>
    let k := inp.length - rest.length
    if k = 0 then (sp.1, sp.1)
    else
      match inp[k - 1]? with
      | some (_, sp2) => (sp.1, sp2.2)
      | none => (sp.1, sp.1)

def tWithSpan (p : TP α) : TP (α × Span) := fun inp =>
  (p inp).map (fun r => ((r.1, consumedSpan inp r.2), r.2))

/-- Scalar value of a numeric token: the raw text is re-parsed as an f32;
zero fractional part gives an integer (saturating cast), otherwise a
float.  The `none` case is the source's `unwrap` panic site; the lexer
never emits a numeric token for which it is reached. -/
def numValue (n : String) : Option ValueExpr :=
  (parseF32 n).map (fun num => if num.fractNZ then .float num else .long num.asI32)

/-- `val`: numeric or string token, with span. -/
def tVal : TP (ValueExpr × Span) :=
  tWithSpan (tSelect (fun t =>
    match t with
    | Token.Num n => numValue n
    | Token.Str s => some (ValueExpr.str s)
    | _ => none))

/-- `ident`: any identifier token. -/
def tIdentP : TP String :=
  tSelect (fun t => match t with | Token.Ident s => some s | _ => none)

/-- `arr_vals`: recursive array literal
`(val | array) separated by ',' (trailing comma allowed) inside braces`;
the structural fuel stands in for chumsky's `recursive`. -/
def arrVals : Nat → TP (ValueExpr × Span)
  | 0 => fun _ => none
  | f + 1 =>
    tWithSpan (pMap ValueExpr.array
      (pThenIgnore
        (pIgnoreThen (tJust (Token.Ctrl '\x7b'))
          (pSepByTrailing (pOr tVal (arrVals f)) (tJust (Token.Ctrl ','))))
        (tJust (Token.Ctrl '\x7d'))))

/-- `prop`: `identifier '=' value ';'`. -/
def tProp : TP (EntryExpr × Span) :=
  tWithSpan (pMap (fun r => EntryExpr.prop r.1 r.2)
    (pThenIgnore
      (pThen (pThenIgnore tIdentP (tJust (Token.Ctrl '='))) tVal)
      (tJust (Token.Ctrl ';'))))

/-- `prop_arr`: `identifier '[' ']' '=' array-literal ';'`. -/
def tPropArr (f : Nat) : TP (EntryExpr × Span) :=
  tWithSpan (pMap (fun r => EntryExpr.prop r.1 r.2)
    (pThenIgnore
      (pThen
        (pThenIgnore
          (pThenIgnore (pThenIgnore tIdentP (tJust (Token.Ctrl '[')))
            (tJust (Token.Ctrl ']')))
          (tJust (Token.Ctrl '=')))
        (arrVals f))
      (tJust (Token.Ctrl ';'))))

/-- `extern_class`: `'class' identifier ';'`. -/
def tExternClass : TP (EntryExpr × Span) :=
  tWithSpan (pMap EntryExpr.ext
    (pThenIgnore (pIgnoreThen (tJust Token.Class) tIdentP) (tJust (Token.Ctrl ';'))))

/-- `del_class`: `'delete' identifier ';'`. -/
def tDelClass : TP (EntryExpr × Span) :=
  tWithSpan (pMap EntryExpr.del
    (pThenIgnore (pIgnoreThen (tJust Token.Delete) tIdentP) (tJust (Token.Ctrl ';'))))

/-- `parent = (':' identifier)?`. -/
def tParent : TP (Option String) :=
  pOrNot (pIgnoreThen (tJust (Token.Ctrl ':')) tIdentP)

/-- `entry = prop.or(prop_arr).or(extern_class).or(del_class)`. -/
def tEntry (f : Nat) : TP (EntryExpr × Span) :=
  pOr tProp (pOr (tPropArr f) (pOr tExternClass tDelClass))

/-- `class`: recursive class definition; the body repeats
`class-or-entry`. -/
def tClassP : Nat → TP (EntryExpr × Span)
  | 0 => fun _ => none
  | f + 1 =>
    tWithSpan (pMap (fun r => EntryExpr.cls r.1.1 r.1.2 r.2)
      (pThenIgnore
        (pThenIgnore
          (pThen (pThen (pIgnoreThen (tJust Token.Class) tIdentP) tParent)
            (pIgnoreThen (tJust (Token.Ctrl '\x7b'))
              (pRepeated (pOr (tClassP f) (tEntry f)))))
          (tJust (Token.Ctrl '\x7d')))
        (tJust (Token.Ctrl ';'))))

def tEnd : TP Unit := fun inp =>
  match inp with
  | [] => some ((), [])
  | _ => none

/-- Whole-stream grammar: `class.or(entry).repeated().then_ignore(end())`. -/
def tTop (f : Nat) : TP (List (EntryExpr × Span)) :=
  pThenIgnore (pRepeated (pOr (tClassP f) (tEntry f))) tEnd

/-- `entry_parser` run through `parse_recovery`: a failed parse yields no
AST and at least one diagnostic (fuel is the token count, which bounds
every nesting depth). -/
def runEntryParser (toks : List (Token × Span)) :
    Option (List (EntryExpr × Span)) × List Diag :=
  match tTop (toks.length + 1) toks with
  | some (es, _) => (some es, [])
  | none => (none, [⟨(0, 0), "unexpected token or end of input"⟩])

/-! ## Document model (`entry.rs` data model, as pinned by the
`From<EntryExpr>` / `From<ValueExpr>` impls in `parser.rs` and by
`config.rs`). -/

inductive CfgValue where
  | long (i : Int)
  | float (f : Float32)
  | string (s : String)
  | array (xs : List CfgValue)

/-- Entry variants (`CfgEntry::Property/Class/Extern/Delete`; `cls`,
`ext`, `del` stand for the Rust names `Class`, `Extern`, `Delete`, which
collide with Lean keywords). -/
inductive CfgEntry where
  | property (name : String) (value : CfgValue)
  | cls (name : String) (parent : Option String) (entries : List CfgEntry)
  | ext (name : String)
  | del (name : String)

/-- `From<ValueExpr> for CfgValue` (drops spans).  The explicit fuel only
makes the structural recursion through `List` kernel-reducible: any fuel
at least the nesting depth computes the conversion, and callers pass the
token count, which bounds the depth. -/
def valueToCfg : Nat → ValueExpr → CfgValue
  | _, .long i => .long i
  | _, .float fv => .float fv
  | _, .str s => .string s
  | 0, .array _ => .array []
  | f + 1, .array xs => .array (xs.map (fun p => valueToCfg f p.1))

/-- `From<EntryExpr> for CfgEntry` (drops spans; fuel as in `valueToCfg`). -/
def entryToCfg : Nat → EntryExpr → CfgEntry
  | f, .prop n v => .property n (valueToCfg f v.1)
  | 0, .cls n p _ => .cls n p []
  | f + 1, .cls n p es => .cls n p (es.map (fun q => entryToCfg f q.1))
  | _, .ext n => .ext n
  | _, .del n => .del n

/-- Error kinds (`RvffConfigErrorKind`), restricted to the taxonomy the
spec enumerates. -/
inductive RvffConfigError where
  | invalidFileError
  | rvffParseError (rendered : String)
  | ioError
  | truncatedOrCorrupt
deriving DecidableEq

/-- Rendering of one diagnostic (the ariadne report construction is the
external diagnostics formatter; the model renders the span-and-reason
pair it is handed). -/
def renderDiag (d : Diag) : String :=
  d.msg ++ " at " ++ toString d.span.1 ++ ".." ++ toString d.span.2

/-- Final assembly of `parser.rs::parse`: the parsed entries are
converted and returned only when no diagnostic at all was collected
(`ast.filter(|_| errs.len() + parse_errs.len() == 0)` in the source);
otherwise one `RvffParseError` aggregates every collected diagnostic. -/
def parseAssemble (lexed : List (Token × Span) × List Diag)
    (parsed : Option (List (EntryExpr × Span)) × List Diag) :
    Except RvffConfigError (List CfgEntry) :=
  match (if lexed.2.length + parsed.2.length = 0 then parsed.1 else none) with
  | some funcs => .ok (funcs.map (fun e => entryToCfg (lexed.1.length + 1) e.1))
  | none =>
    .error (.rvffParseError
      (String.intercalate "\n" ((lexed.2 ++ parsed.2).map renderDiag)))

/-- `parser.rs::parse`: lex, run the grammar parser, assemble. -/
def parse (src : String) : Except RvffConfigError (List CfgEntry) :=
  parseAssemble (lexer src) (runEntryParser (lexer src).1)

/-- All diagnostics one text decode collects (lexer then grammar
parser), in the order `parse` aggregates them. -/
def diagnostics (src : String) : List Diag :=
  (lexer src).2 ++ (runEntryParser (lexer src).1).2

/-! ## Byte cursor and decode entry points (`config.rs`)

The byte source is modelled as a byte list plus a cursor position.  The
generic reader utilities (`core/read.rs`) and the binary entry decoder
(`entry.rs`) are code of this repository that is not among the sources
under verification; those parts are modelled from the spec and marked as
such. -/

def RAP_MAGIC : Nat := 1348563456

structure CfgReader where
  data : List Nat
  pos : Nat
deriving DecidableEq

def readU8 (r : CfgReader) : Option (Nat × CfgReader) :=
  match r.data[r.pos]? with
  | some b => some (b, ⟨r.data, r.pos + 1⟩)
  | none => none

/-- Modelled from the spec: the byte cursor's little-endian fixed-width
32-bit read (`core/read.rs::read_u32` is not under the verified
sources). -/
def read_u32 (r : CfgReader) : Option (Nat × CfgReader) :=
  match readU8 r with
  | none => none
  | some (b0, r1) =>
    match readU8 r1 with
    | none => none
    | some (b1, r2) =>
      match readU8 r2 with
      | none => none
      | some (b2, r3) =>
        match readU8 r3 with
        | none => none
        | some (b3, r4) =>
          some (b0 + 256 * b1 + 65536 * b2 + 16777216 * b3, r4)

def readZtGo : Nat → CfgReader → List Nat → Option (List Nat × CfgReader)
  | 0, _, _ => none
  | f + 1, r, acc =>
    match readU8 r with
    | none => none
    | some (b, r1) =>
      if b = 0 then some (acc.reverse, r1) else readZtGo f r1 (b :: acc)

/-- Continuation-byte test for UTF-8 decoding. -/
def isCont (b : Nat) : Bool := 128 ≤ b && b < 192

/-- Strict UTF-8 decoding of a byte list (rejecting overlong forms,
surrogates and out-of-range code points, as Rust's `read_to_string`
does). -/
def utf8DecodeGo : Nat → List Nat → List Char → Option (List Char)
  | _, [], acc => some acc.reverse
  | 0, _ :: _, _ => none
  | f + 1, b :: rest, acc =>
    if b < 128 then utf8DecodeGo f rest (Char.ofNat b :: acc)
    else if b < 194 then none
    else if b < 224 then
      match rest with
      | b1 :: r2 =>
        if isCont b1 then
          utf8DecodeGo f r2 (Char.ofNat ((b - 192) * 64 + (b1 - 128)) :: acc)
        else none
      | _ => none
    else if b < 240 then
      match rest with
      | b1 :: b2 :: r3 =>
        if isCont b1 && isCont b2 &&
            (b != 224 || 160 ≤ b1) && (b != 237 || b1 < 160) then
          utf8DecodeGo f r3
            (Char.ofNat ((b - 224) * 4096 + (b1 - 128) * 64 + (b2 - 128)) :: acc)
        else none
      | _ => none
    else if b < 245 then
      match rest with
      | b1 :: b2 :: b3 :: r4 =>
        if isCont b1 && isCont b2 && isCont b3 &&
            (b != 240 || 144 ≤ b1) && (b != 244 || b1 < 144) then
          utf8DecodeGo f r4
            (Char.ofNat ((b - 240) * 262144 + (b1 - 128) * 4096 +
              (b2 - 128) * 64 + (b3 - 128)) :: acc)
        else none
      | _ => none
    else none

def utf8Decode (bs : List Nat) : Option String :=
  (utf8DecodeGo (bs.length + 1) bs []).map (fun cs => String.mk cs)

/-- Modelled from the spec: null-terminated string read
(`core/read.rs::read_string_zt`): bytes up to a zero byte (consumed),
UTF-8 decoded. -/
def read_string_zt (r : CfgReader) : Option (String × CfgReader) :=
  match readZtGo (r.data.length + 1) r [] with
  | none => none
  | some (bs, r1) =>
    match utf8Decode bs with
    | some s => some (s, r1)
    | none => none

/-- Modelled from the spec: the variable-length ("compressed") unsigned
integer read (`core/read.rs::read_compressed_int`): 7-bit groups, high
bit as continuation. -/
def readCompressedGo : Nat → CfgReader → Nat → Nat → Option (Nat × CfgReader)
  | 0, _, _, _ => none
  | f + 1, r, shift, acc =>
    match readU8 r with
    | none => none
    | some (b, r1) =>
      if b < 128 then some (acc + b * 2 ^ shift, r1)
      else readCompressedGo f r1 (shift + 7) (acc + (b - 128) * 2 ^ shift)

def read_compressed_int (r : CfgReader) : Option (Nat × CfgReader) :=
  readCompressedGo (r.data.length + 1) r 0 0

/-- Exact value of an f32 bit pattern, for binary property payloads (NaN
patterns, which nothing verified here touches, are collapsed into the
infinity of their sign). -/
def f32FromBits (bits : Nat) : Float32 :=
  let sign := 2147483648 ≤ bits
  let e8 := bits / 8388608 % 256
  let m := bits % 8388608
  if e8 = 255 then .inf sign
  else if e8 = 0 then
    .finite (if sign then -(Int.ofNat m) else Int.ofNat m) (2 ^ 149)
  else
    let mv : Int := Int.ofNat (8388608 + m)
    finVal (if sign then -mv else mv) (Int.ofNat e8 - 127)

def i32FromBits (bits : Nat) : Int :=
  if bits < 2147483648 then Int.ofNat bits else Int.ofNat bits - 4294967296

/-- Modelled from the spec (§4.1): a counted sequence of binary value
payloads, each a value-type discriminant followed by the typed payload;
array elements recurse; any short read or unknown discriminant is
`TruncatedOrCorrupt`.  (The binary entry decoder lives in `entry.rs`,
outside the verified sources.)  The structural fuel dominates every
recursion; one byte is consumed before each recursive call. -/
def parseValsGo : Nat → Nat → CfgReader → Except RvffConfigError (List CfgValue × CfgReader)
  | 0, _, _ => .error .truncatedOrCorrupt
  | _ + 1, 0, r => .ok ([], r)
  | f + 1, k + 1, r =>
    match readU8 r with
    | none => .error .truncatedOrCorrupt
    | some (vt, r1) =>
      let one : Except RvffConfigError (CfgValue × CfgReader) :=
        if vt = 0 then
          match read_string_zt r1 with
          | some (s, r2) => .ok (.string s, r2)
          | none => .error .truncatedOrCorrupt
        else if vt = 1 then
          match read_u32 r1 with
          | some (bits, r2) => .ok (.float (f32FromBits bits), r2)
          | none => .error .truncatedOrCorrupt
        else if vt = 2 then
          match read_u32 r1 with
          | some (bits, r2) => .ok (.long (i32FromBits bits), r2)
          | none => .error .truncatedOrCorrupt
        else if vt = 3 then
          match read_compressed_int r1 with
          | some (count, r2) =>
            match parseValsGo f count r2 with
            | .ok (vs, r3) => .ok (.array vs, r3)
            | .error e => .error e
          | none => .error .truncatedOrCorrupt
        else .error .truncatedOrCorrupt
      match one with
      | .error e => .error e
      | .ok (v, r2) =>
        match parseValsGo f k r2 with
        | .ok (vs, r3) => .ok (v :: vs, r3)
        | .error e => .error e

/-- Modelled from the spec (§4.1): a counted sequence of binary entry
records (`entry.rs::CfgEntry::parse_entry` repeated): a discriminant
byte selects the variant; a Property reads a name then one typed value;
a Class reads a name, a parent flag and name, and a counted body of
child entries; Extern and Delete read one name; anything else is
`TruncatedOrCorrupt`. -/
def parseEntriesGo : Nat → Nat → CfgReader → Except RvffConfigError (List CfgEntry × CfgReader)
  | 0, _, _ => .error .truncatedOrCorrupt
  | _ + 1, 0, r => .ok ([], r)
  | f + 1, k + 1, r =>
    match readU8 r with
    | none => .error .truncatedOrCorrupt
    | some (d, r1) =>
      let one : Except RvffConfigError (CfgEntry × CfgReader) :=
        if d = 0 then
          match read_string_zt r1 with
          | none => .error .truncatedOrCorrupt
          | some (name, r2) =>
            match readU8 r2 with
            | none => .error .truncatedOrCorrupt
            | some (pflag, r3) =>
              let par : Option (Option String × CfgReader) :=
                if pflag = 0 then some (none, r3)
                else
                  match read_string_zt r3 with
                  | some (pn, r4) => some (some pn, r4)
                  | none => none
              match par with
              | none => .error .truncatedOrCorrupt
              | some (parent, r4) =>
                match read_compressed_int r4 with
                | none => .error .truncatedOrCorrupt
                | some (count, r5) =>
                  match parseEntriesGo f count r5 with
                  | .ok (body, r6) => .ok (.cls name parent body, r6)
                  | .error e => .error e
        else if d = 1 then
          match read_string_zt r1 with
          | none => .error .truncatedOrCorrupt
          | some (name, r2) =>
            match parseValsGo f 1 r2 with
            | .ok (v :: _, r3) => .ok (.property name v, r3)
            | .ok ([], _) => .error .truncatedOrCorrupt
            | .error e => .error e
        else if d = 2 then
          match read_string_zt r1 with
          | some (name, r2) => .ok (.ext name, r2)
          | none => .error .truncatedOrCorrupt
        else if d = 3 then
          match read_string_zt r1 with
          | some (name, r2) => .ok (.del name, r2)
          | none => .error .truncatedOrCorrupt
        else .error .truncatedOrCorrupt
      match one with
      | .error e => .error e
      | .ok (e, r2) =>
        match parseEntriesGo f k r2 with
        | .ok (es, r3) => .ok (e :: es, r3)
        | .error err => .error err

/-- The unified document (`Cfg`). -/
structure Cfg where
  enum_offset : Nat
  inherited_classname : String
  entries : List CfgEntry

/-- `Cfg::is_valid_rap_bin`: three little-endian u32 reads compared, with
Rust's `&&` short-circuit, against the magic, `0` and `8`. -/
def Cfg.is_valid_rap_bin (r : CfgReader) : Bool × CfgReader :=
  match read_u32 r with
  | none => (false, r)
  | some (v0, r1) =>
    if v0 = RAP_MAGIC then
      match read_u32 r1 with
      | none => (false, r1)
      | some (v1, r2) =>
        if v1 = 0 then
          match read_u32 r2 with
          | none => (false, r2)
          | some (v2, r3) => (decide (v2 = 8), r3)
        else (false, r2)
    else (false, r1)

def CfgReader.rewind (r : CfgReader) : CfgReader := ⟨r.data, 0⟩

/-- Body of `Cfg::read_config` after a successful header validation:
enum-table offset, inherited classname, entry count, then that many
entries (reader failures propagate as `IoError`, exactly as the `?`
operator does in the source). -/
def Cfg.readConfigBody (r : CfgReader) : Except RvffConfigError Cfg :=
  match read_u32 r with
  | none => .error .ioError
  | some (enum_offset, r1) =>
    match read_string_zt r1 with
    | none => .error .ioError
    | some (inherited_classname, r2) =>
      match read_compressed_int r2 with
      | none => .error .ioError
      | some (entry_count, r3) =>
        match parseEntriesGo (r3.data.length + 1) entry_count r3 with
        | .ok (entries, _) => .ok ⟨enum_offset, inherited_classname, entries⟩
        | .error e => .error e

/-- `Cfg::read_config` (entry point B): header validation with an
immediate `InvalidFormat` failure and no fallback, then the binary
body. -/
def Cfg.read_config (r : CfgReader) : Except RvffConfigError Cfg :=
  let v := Cfg.is_valid_rap_bin r
  if !v.1 then .error .invalidFileError
  else Cfg.readConfigBody v.2

/-- `Cfg::parse_config` (entry point C): text decode; a successful parse
gets enum-table offset `0` and an empty inherited classname. -/
def Cfg.parse_config (cfg : String) : Except RvffConfigError Cfg :=
  match parse cfg with
  | .ok entries => .ok ⟨0, "", entries⟩
  | .error e => .error e

/-- `Cfg::read` (entry point A): peek the header, rewind, then dispatch
to the binary decoder on a match and otherwise read the full byte
sequence as text (an invalid UTF-8 byte stream is the `read_to_string`
I/O failure). -/
def Cfg.read (r : CfgReader) : Except RvffConfigError Cfg :=
  let v := Cfg.is_valid_rap_bin r
  let r2 := v.2.rewind
  if v.1 then Cfg.read_config r2
  else
    match utf8Decode (r2.data.drop r2.pos) with
    | some text => Cfg.parse_config text
    | none => .error .ioError

/-- `Cfg::read_data`. -/
def Cfg.read_data (data : List Nat) : Except RvffConfigError Cfg :=
  Cfg.read ⟨data, 0⟩

/-! ## Path lookup

`Cfg::get_entry` scans the top-level entries and returns the first
per-entry lookup that succeeds (`config.rs:84-91`).  The per-entry
lookup itself (`entry.rs::CfgEntry::get_entry` and `EntryReturn`) is not
among the verified sources and is modelled from the spec (§4.4): a Class
whose name matches the head segment resolves the rest of the path in its
body, where the first name match (Class or Property) decides the branch;
a Property whose name matches a final segment returns its value; a name
match with the wrong variant for the remaining path yields "not found"
for that branch. -/

inductive EntryReturn where
  | entry (e : CfgEntry)
  | value (v : CfgValue)

/-- Modelled from the spec: first entry of a class body whose name
matches the next path segment (Class or Property; Extern and Delete do
not participate in lookup). -/
def findNameMatch (nm : String) : List CfgEntry → Option CfgEntry
  | [] => none
  | e :: rest =>
    match e with
    | .property n v => if n = nm then some (.property n v) else findNameMatch nm rest
    | .cls n p es => if n = nm then some (.cls n p es) else findNameMatch nm rest
    | .ext _ => findNameMatch nm rest
    | .del _ => findNameMatch nm rest

/-- Modelled from the spec: `CfgEntry::get_entry` — resolve a path
against one entry. -/
def entryGet : List String → CfgEntry → Option EntryReturn
  | [], _ => none
  | nm :: rest, .property n v =>
    if n = nm ∧ rest = [] then some (.value v) else none
  | nm :: rest, .cls n p es =>
    if n = nm then
      match rest with
      | [] => some (.entry (.cls n p es))
      | nm2 :: _ =>
        match findNameMatch nm2 es with
        | some e => entryGet rest e
        | none => none
    else none
  | _ :: _, .ext _ => none
  | _ :: _, .del _ => none

/-- The top-level scan of `Cfg::get_entry`: first per-entry lookup that
returns a result wins; an entry whose lookup fails does not stop the
scan. -/
def scanFirst (path : List String) : List CfgEntry → Option EntryReturn
  | [] => none
  | e :: rest =>
    match entryGet path e with
    | some x => some x
    | none => scanFirst path rest

def Cfg.get_entry (cfg : Cfg) (path : List String) : Option EntryReturn :=
  scanFirst path cfg.entries

/-- The little-endian 32-bit word starting at byte offset `p` (missing
bytes read as zero; only used under a length hypothesis). -/
def leWordAt (data : List Nat) (p : Nat) : Nat :=
  data.getD p 0 + 256 * data.getD (p + 1) 0 + 65536 * data.getD (p + 2) 0 +
    16777216 * data.getD (p + 3) 0

/-- Rendered text of the continuation of a string-concatenation run: for
each element `(w1, w2, s)`, whitespace `w1`, the two characters `\n`,
whitespace `w2`, then `s` in quotes. -/
def renderTail : List (List Char × List Char × String) → List Char
  | [] => []
  | (w1, w2, s) :: t =>
    w1 ++ '\\' :: 'n' :: (w2 ++ '"' :: (s.toList ++ '"' :: renderTail t))

/-- Rendered text of a whole string-concatenation run. -/
def renderConcat (first : String) (tail : List (List Char × List Char × String)) :
    List Char :=
  '"' :: (first.toList ++ '"' :: renderTail tail)

/-- Well-formedness of a rendered run: components contain no quote, the
separating pads are whitespace. -/
def concatOK (first : String) (tail : List (List Char × List Char × String)) : Prop :=
  (∀ c ∈ first.toList, c ≠ '"') ∧
    ∀ p ∈ tail, (∀ c ∈ p.1, c.isWhitespace) ∧ (∀ c ∈ p.2.1, c.isWhitespace) ∧
      ∀ c ∈ p.2.2.toList, c ≠ '"' 

/-- Source text of a depth-`n` nested array literal: `1` wrapped in `n`
brace pairs. -/
def nestChars : Nat → List Char
  | 0 => ['1']
  | n + 1 => '\x7b' :: (nestChars n ++ ['\x7d'])

/-- Token sequence of a depth-`n` nested array literal. -/
def nestToks : Nat → List Token
  | 0 => [Token.Num "1"]
  | n + 1 => Token.Ctrl '\x7b' :: (nestToks n ++ [Token.Ctrl '\x7d'])

/-- Attach one-character spans starting at position `p` (every token of
the nested-array texts is one character wide). -/
def spanify : List Token → Nat → List (Token × Span)
  | [], _ => []
  | t :: ts, p => (t, (p, p + 1)) :: spanify ts (p + 1)

/-- Expected document value of a depth-`n` nested array literal. -/
def nestedCfg : Nat → CfgValue
  | 0 => CfgValue.long 1
  | n + 1 => CfgValue.array [nestedCfg n]

/-- The character lists that may follow a nested literal in the sources
below: a closing brace or the final semicolon. -/
def closeHead (cs : List Char) : Prop :=
  cs.head? = some '\x7d' ∨ cs.head? = some ';' 

/-- Source text of the property `a[]=` applied to a depth-`n + 1` nested
array literal. -/
def arrSrcChars (n : Nat) : List Char :=
  'a' :: '[' :: ']' :: '=' :: (nestChars (n + 1) ++ [';'])

/-- Token stream the lexer produces for `arrSrcChars`. -/
def arrToks (n : Nat) : List (Token × Span) :=
  (Token.Ident "a", (0, 1)) :: (Token.Ctrl '[', (1, 2)) :: (Token.Ctrl ']', (2, 3)) ::
    (Token.Ctrl '=', (3, 4)) :: (spanify (nestToks (n + 1)) 4 ++
      [(Token.Ctrl ';', (4 + (2 * (n + 1) + 1), 4 + (2 * (n + 1) + 1) + 1))])

end Rvff

namespace Rvff

/-! ## Combinator shape lemmas -/

theorem pMap_eq_some {f : α → β} {p : P ι α} {inp : List ι} {b : β} {rest : List ι}
    (h : pMap f p inp = some (b, rest)) :
    ∃ a, p inp = some (a, rest) ∧ b = f a := by
  unfold pMap at h
  rcases Option.map_eq_some'.mp h with ⟨⟨a, r⟩, hp, hba⟩
  rw [Prod.mk.injEq] at hba
  exact ⟨a, by rw [hp, show r = rest from hba.2], hba.1.symm⟩

theorem pOr_eq_some {p q : P ι α} {inp : List ι} {r : α × List ι}
    (h : pOr p q inp = some r) :
    p inp = some r ∨ (p inp = none ∧ q inp = some r) := by
  unfold pOr at h
  cases hp : p inp with
  | none => rw [hp] at h; exact Or.inr ⟨rfl, h⟩
  | some r' =>
    rw [hp] at h
    exact Or.inl h

/-- Every token produced by the numeric rule that is a `Num` carries text
that re-parses as an f32 (the demotion guard). -/
theorem pNum_num {inp rest : List Char} {t : Token}
    (h : pNum inp = some (t, rest)) :
    ∀ n, t = Token.Num n → (parseF32 n).isSome := by
  obtain ⟨cs, _, hb⟩ := pMap_eq_some h
  intro n hn
  subst hn
  by_cases hg : (parseF32 (String.mk cs)).isSome
  · rw [if_pos hg] at hb
    cases hb
    exact hg
  · rw [if_neg hg] at hb
    cases hb

/-- The string-run rule only produces `Str` tokens. -/
theorem pStrs_shape {inp rest : List Char} {t : Token}
    (h : pStrs inp = some (t, rest)) : ∃ s, t = Token.Str s := by
  rcases pOr_eq_some h with h1 | ⟨_, h1⟩
  · obtain ⟨a, _, hb⟩ := pMap_eq_some h1
    exact ⟨joinStrTokens a, hb⟩
  · obtain ⟨a, _, hb⟩ := pMap_eq_some h1
    exact ⟨String.mk a, hb⟩

/-- The control rule only produces `Ctrl` tokens. -/
theorem pCtrl_shape {inp rest : List Char} {t : Token}
    (h : pCtrl inp = some (t, rest)) : ∃ c, t = Token.Ctrl c := by
  obtain ⟨a, _, hb⟩ := pMap_eq_some h
  exact ⟨a, hb⟩

/-- The identifier rule never produces a `Num` token. -/
theorem pIdent_not_num {inp rest : List Char} {t : Token} {n : String}
    (h : pIdent inp = some (t, rest)) : t ≠ Token.Num n := by
  obtain ⟨cs, _, hb⟩ := pMap_eq_some h
  subst hb
  by_cases h1 : String.mk cs = "class"
  · simp [h1]
  · by_cases h2 : String.mk cs = "delete" <;> simp [h1, h2]

/-- Any `Num` token the combined token rule emits carries re-parsable
text. -/
theorem pToken_num {inp rest : List Char} {n : String}
    (h : pToken inp = some (Token.Num n, rest)) : (parseF32 n).isSome := by
  unfold pToken at h
  rcases pOr_eq_some h with h1 | ⟨_, h1⟩
  · exact pNum_num h1 n rfl
  · rcases pOr_eq_some h1 with h2 | ⟨_, h2⟩
    · obtain ⟨s, hs⟩ := pStrs_shape h2
      cases hs
    · rcases pOr_eq_some h2 with h3 | ⟨_, h3⟩
      · obtain ⟨c, hc⟩ := pCtrl_shape h3
        cases hc
      · exact absurd rfl (pIdent_not_num h3)

/-- Evaluation of one lexing step when the padding leaves nothing. -/
theorem lexStep_eq_nil {cs : List Char} {pos : Nat} (hskip : skipLead cs = []) :
    lexStep cs pos = none := by
  simp only [lexStep, hskip]

/-- Evaluation of one lexing step when a token parses. -/
theorem lexStep_eq_tok {cs t : List Char} {c : Char}
    {tok : Token} {rest : List Char} (pos : Nat)
    (hskip : skipLead cs = c :: t) (htok : pToken (c :: t) = some (tok, rest)) :
    lexStep cs pos =
      some (Sum.inl (tok, (pos + (cs.length - (c :: t).length),
          pos + (cs.length - (c :: t).length) + ((c :: t).length - rest.length))),
        skipTrail rest,
        pos + (cs.length - (c :: t).length) + ((c :: t).length - rest.length)
          + (rest.length - (skipTrail rest).length)) := by
  simp only [lexStep, hskip, htok]

/-- Evaluation of one lexing step on an unrecognized character. -/
theorem lexStep_eq_skip {cs t : List Char} {c : Char} {pos : Nat}
    (hskip : skipLead cs = c :: t) (htok : pToken (c :: t) = none) :
    lexStep cs pos =
      some (Sum.inr ⟨(pos + (cs.length - (c :: t).length),
          pos + (cs.length - (c :: t).length) + 1), "unexpected character"⟩,
        t, pos + (cs.length - (c :: t).length) + 1) := by
  simp only [lexStep, hskip, htok]

/-- A token step always comes out of the token rule. -/
theorem lexStep_token {cs : List Char} {pos : Nat} {tsp : Token × Span}
    {cs' : List Char} {pos' : Nat}
    (h : lexStep cs pos = some (Sum.inl tsp, cs', pos')) :
    ∃ inp rest, pToken inp = some (tsp.1, rest) := by
  rcases hskip : skipLead cs with _ | ⟨c, t⟩
  · rw [lexStep_eq_nil hskip] at h
    cases h
  · rcases htok : pToken (c :: t) with _ | ⟨tok, rest⟩
    · rw [lexStep_eq_skip hskip htok] at h
      simp at h
    · rw [lexStep_eq_tok pos hskip htok] at h
      simp only [Option.some.injEq, Prod.mk.injEq, Sum.inl.injEq] at h
      refine ⟨c :: t, rest, ?_⟩
      rw [htok, ← h.1]

/-- Tokens accumulated by the lexing loop either were in the accumulator
already or came out of the token rule. -/
theorem lexGo_mem : ∀ (f : Nat) (cs : List Char) (pos : Nat)
    (acc : List (Token × Span)) (diags : List Diag) (t : Token) (sp : Span),
    (t, sp) ∈ (lexGo f cs pos acc diags).1 →
    (t, sp) ∈ acc ∨ ∃ inp rest, pToken inp = some (t, rest) := by
  intro f
  induction f with
  | zero =>
    intro cs pos acc diags t sp h
    rw [show lexGo 0 cs pos acc diags = (acc.reverse, diags.reverse) from rfl,
      List.mem_reverse] at h
    exact Or.inl h
  | succ f ih =>
    intro cs pos acc diags t sp h
    rcases hstep : lexStep cs pos with _ | ⟨tsp | d, cs', pos'⟩
    · rw [show lexGo (f + 1) cs pos acc diags = (acc.reverse, diags.reverse) from
        by simp only [lexGo, hstep], List.mem_reverse] at h
      exact Or.inl h
    · rw [show lexGo (f + 1) cs pos acc diags = lexGo f cs' pos' (tsp :: acc) diags from
        by simp only [lexGo, hstep]] at h
      rcases ih _ _ _ _ t sp h with hacc | hfound
      · rcases List.mem_cons.mp hacc with heq | hacc'
        · obtain ⟨inp, rest, htok⟩ := lexStep_token hstep
          exact Or.inr ⟨inp, rest, by rw [htok, ← heq]⟩
        · exact Or.inl hacc'
      · exact Or.inr hfound
    · rw [show lexGo (f + 1) cs pos acc diags = lexGo f cs' pos' acc (d :: diags) from
        by simp only [lexGo, hstep]] at h
      exact ih _ _ _ _ t sp h

/-- Every `Num` token in the lexer's output carries text that re-parses
as an f32 (so the grammar parser's `unwrap` precondition holds). -/
theorem numToken_reparses {src : String} {n : String} {sp : Span}
    (h : (Token.Num n, sp) ∈ (lexer src).1) : (parseF32 n).isSome := by
  unfold lexer at h
  rcases lexGo_mem _ _ _ _ _ _ _ h with habs | ⟨inp, rest, htok⟩
  · cases habs
  · exact pToken_num htok

/-! ## Forward evaluation helpers for the combinators -/

theorem pThen_eq {p : P ι α} {q : P ι β} {inp r r' : List ι} {a : α} {b : β}
    (hp : p inp = some (a, r)) (hq : q r = some (b, r')) :
    pThen p q inp = some ((a, b), r') := by
  simp [pThen, hp, hq]

theorem pThen_none_left {p : P ι α} {q : P ι β} {inp : List ι}
    (hp : p inp = none) : pThen p q inp = none := by
  simp [pThen, hp]

theorem pThen_none_right {p : P ι α} {q : P ι β} {inp r : List ι} {a : α}
    (hp : p inp = some (a, r)) (hq : q r = none) : pThen p q inp = none := by
  simp [pThen, hp, hq]

theorem pMap_eq {f : α → β} {p : P ι α} {inp r : List ι} {a : α}
    (hp : p inp = some (a, r)) : pMap f p inp = some (f a, r) := by
  simp [pMap, hp]

theorem pMap_none {f : α → β} {p : P ι α} {inp : List ι}
    (hp : p inp = none) : pMap f p inp = none := by
  simp [pMap, hp]

theorem pThenIgnore_eq {p : P ι α} {q : P ι β} {inp r r' : List ι} {a : α} {b : β}
    (hp : p inp = some (a, r)) (hq : q r = some (b, r')) :
    pThenIgnore p q inp = some (a, r') :=
  pMap_eq (pThen_eq hp hq)

theorem pIgnoreThen_eq {p : P ι α} {q : P ι β} {inp r r' : List ι} {a : α} {b : β}
    (hp : p inp = some (a, r)) (hq : q r = some (b, r')) :
    pIgnoreThen p q inp = some (b, r') :=
  pMap_eq (pThen_eq hp hq)

theorem pOr_first {p q : P ι α} {inp : List ι} {r : α × List ι}
    (hp : p inp = some r) : pOr p q inp = some r := by
  simp [pOr, hp]

theorem pOr_second {p q : P ι α} {inp : List ι}
    (hp : p inp = none) : pOr p q inp = q inp := by
  simp [pOr, hp]

theorem tWithSpan_eq {p : TP α} {inp rest : List (Token × Span)} {a : α}
    (hp : p inp = some (a, rest)) :
    tWithSpan p inp = some ((a, consumedSpan inp rest), rest) := by
  simp [tWithSpan, hp]

/-! ## Symbolic evaluation of the grammar parser on a scalar property -/

theorem tVal_num {n : String} {s3 : Span} {rest : List (Token × Span)} {ve : ValueExpr}
    (hnv : numValue n = some ve) :
    tVal ((.Num n, s3) :: rest) = some ((ve, (s3.1, s3.2)), rest) := by
  simp only [tVal, tWithSpan, tSelect, hnv, consumedSpan]
  simp

set_option maxHeartbeats 1000000

/-- The grammar parser on the token stream of one scalar property
`identifier '=' numeric ';'` (the `Num` token's value hypothesis feeds
the value rule). -/
theorem runEntryParser_scalar {x n : String} {s1 s2 s3 s4 : Span} {ve : ValueExpr}
    (hnv : numValue n = some ve) :
    runEntryParser [(.Ident x, s1), (.Ctrl '=', s2), (.Num n, s3), (.Ctrl ';', s4)] =
      (some [(EntryExpr.prop x (ve, (s3.1, s3.2)), (s1.1, s4.2))], []) := by
  have hpre : pThenIgnore tIdentP (tJust (Token.Ctrl '='))
      [(.Ident x, s1), (.Ctrl '=', s2), (.Num n, s3), (.Ctrl ';', s4)] =
      some (x, [(.Num n, s3), (.Ctrl ';', s4)]) :=
    pThenIgnore_eq rfl rfl
  have hval := @tVal_num n s3 [(Token.Ctrl ';', s4)] ve hnv
  have hbody := pThen_eq hpre hval
  have hsemi : tJust (Token.Ctrl ';') [((Token.Ctrl ';' : Token), s4)] =
      some (Token.Ctrl ';', []) := rfl
  have hfull := pThenIgnore_eq hbody hsemi
  have hprop : tProp [(.Ident x, s1), (.Ctrl '=', s2), (.Num n, s3), (.Ctrl ';', s4)] =
      some ((EntryExpr.prop x (ve, (s3.1, s3.2)), (s1.1, s4.2)), []) := by
    rw [tProp, tWithSpan_eq (pMap_eq hfull)]
    norm_num [consumedSpan]
  have hentry : pOr (tClassP 5) (tEntry 5)
      [(.Ident x, s1), (.Ctrl '=', s2), (.Num n, s3), (.Ctrl ';', s4)] =
      some ((EntryExpr.prop x (ve, (s3.1, s3.2)), (s1.1, s4.2)), []) := by
    rw [pOr_second (show tClassP (4 + 1)
      [(Token.Ident x, s1), (.Ctrl '=', s2), (.Num n, s3), (.Ctrl ';', s4)] = none from rfl)]
    exact pOr_first hprop
  have hnil : pRepGo (pOr (tClassP 5) (tEntry 5)) 4 ([] : List (Token × Span)) = ([], []) := rfl
  have hrep : pRepGo (pOr (tClassP 5) (tEntry 5)) (4 + 1)
      [(.Ident x, s1), (.Ctrl '=', s2), (.Num n, s3), (.Ctrl ';', s4)] =
      ([(EntryExpr.prop x (ve, (s3.1, s3.2)), (s1.1, s4.2))], []) := by
    rw [pRepGo, hentry]
    simp [hnil]
  have hrepd : pRepeated (pOr (tClassP 5) (tEntry 5))
      [(.Ident x, s1), (.Ctrl '=', s2), (.Num n, s3), (.Ctrl ';', s4)] =
      some ([(EntryExpr.prop x (ve, (s3.1, s3.2)), (s1.1, s4.2))], []) := by
    rw [pRepeated, show ([(Token.Ident x, s1), (.Ctrl '=', s2), (.Num n, s3),
      (.Ctrl ';', s4)]).length + 1 = 4 + 1 from rfl, hrep]
  have htop : tTop 5 [(.Ident x, s1), (.Ctrl '=', s2), (.Num n, s3), (.Ctrl ';', s4)] =
      some ([(EntryExpr.prop x (ve, (s3.1, s3.2)), (s1.1, s4.2))], []) := by
    rw [tTop]
    exact pThenIgnore_eq hrepd (show tEnd ([] : List (Token × Span)) = some ((), []) from rfl)
  rw [runEntryParser]
  rw [show ([(Token.Ident x, s1), (.Ctrl '=', s2), (.Num n, s3), (.Ctrl ';', s4)]).length + 1
    = 5 from rfl, htop]

/-- Conversion of the parser's scalar value to the document model is the
identity on both branches of the dual-typing decision. -/
theorem valueToCfg_scalar (fv : Float32) (f : Nat) :
    valueToCfg f (if fv.fractNZ then ValueExpr.float fv else ValueExpr.long fv.asI32) =
      (if fv.fractNZ then CfgValue.float fv else CfgValue.long fv.asI32) := by
  cases hb : fv.fractNZ <;> simp [valueToCfg]

/-- Membership of the numeric token in the lexed scalar stream. -/
theorem lexer_scalar_mem {src x n : String} {s1 s2 s3 s4 : Span}
    (h : lexer src = ([(.Ident x, s1), (.Ctrl '=', s2), (.Num n, s3), (.Ctrl ';', s4)], [])) :
    (Token.Num n, s3) ∈ (lexer src).1 := by
  rw [h]; simp

/-- The value rule's outcome determined by the re-parsed float. -/
theorem numValue_of_parse {n : String} {fv : Float32} (hfv : parseF32 n = some fv) :
    numValue n = some (if fv.fractNZ then ValueExpr.float fv else ValueExpr.long fv.asI32) := by
  simp [numValue, hfv]

/-- Assembly of `parse` on a lexed scalar property stream. -/
theorem parse_scalar_assemble {src x n : String} {s1 s2 s3 s4 : Span} {fv : Float32}
    (h : lexer src = ([(.Ident x, s1), (.Ctrl '=', s2), (.Num n, s3), (.Ctrl ';', s4)], []))
    (hrun : runEntryParser [(.Ident x, s1), (.Ctrl '=', s2), (.Num n, s3), (.Ctrl ';', s4)] =
      (some [(EntryExpr.prop x
        ((if fv.fractNZ then ValueExpr.float fv else ValueExpr.long fv.asI32),
        (s3.1, s3.2)), (s1.1, s4.2))], [])) :
    parse src = .ok
      [CfgEntry.property x (if fv.fractNZ then CfgValue.float fv else CfgValue.long fv.asI32)] := by
  rw [parse, h]
  rw [show (([(Token.Ident x, s1), (.Ctrl '=', s2), (.Num n, s3), (.Ctrl ';', s4)],
    ([] : List Diag)) : List (Token × Span) × List Diag).1 =
    [(Token.Ident x, s1), (.Ctrl '=', s2), (.Num n, s3), (.Ctrl ';', s4)] from rfl, hrun]
  simp only [parseAssemble]
  simp [entryToCfg, valueToCfg_scalar]

/-- Whole text pipeline on a source that lexes to one scalar numeric
property: the lexer kept the raw text `n`; the grammar parser re-parses
it and picks integer or float by the fractional-part test. -/
theorem parse_lexed_scalar {src x n : String} {s1 s2 s3 s4 : Span}
    (h : lexer src = ([(.Ident x, s1), (.Ctrl '=', s2), (.Num n, s3), (.Ctrl ';', s4)], [])) :
    ∃ fv, parseF32 n = some fv ∧
      Cfg.parse_config src = .ok ⟨0, "",
        [CfgEntry.property x (if fv.fractNZ then CfgValue.float fv else CfgValue.long fv.asI32)]⟩ := by
  obtain ⟨fv, hfv⟩ := Option.isSome_iff_exists.mp (numToken_reparses (lexer_scalar_mem h))
  refine ⟨fv, hfv, ?_⟩
  have hrun := @runEntryParser_scalar x n s1 s2 s3 s4 _
    (numValue_of_parse hfv)
  have hparse := parse_scalar_assemble h hrun
  unfold Cfg.parse_config
  rw [hparse]

/-! ## Diagnostics and error aggregation (`parse`) -/

/-- The grammar parser run either returns an AST with no diagnostics, or
no AST and exactly the failure diagnostic. -/
theorem runEntryParser_cases (toks : List (Token × Span)) :
    (∃ es, runEntryParser toks = (some es, [])) ∨
    runEntryParser toks = (none, [⟨(0, 0), "unexpected token or end of input"⟩]) := by
  unfold runEntryParser
  cases h : tTop (toks.length + 1) toks with
  | none => exact Or.inr rfl
  | some r =>
    obtain ⟨es, rest⟩ := r
    exact Or.inl ⟨es, rfl⟩

/-- `parse` succeeds exactly when no diagnostic was collected, and any
diagnostic turns the whole call into one `RvffParseError` carrying every
collected diagnostic. -/
theorem parse_diag_spec (src : String) :
    ((parse src).isOk ↔ diagnostics src = []) ∧
    (diagnostics src ≠ [] →
      parse src = .error (.rvffParseError
        (String.intercalate "\n" ((diagnostics src).map renderDiag)))) := by
  rcases hl : lexer src with ⟨toks, lexErrs⟩
  have hd : diagnostics src = lexErrs ++ (runEntryParser toks).2 := by
    unfold diagnostics
    rw [hl]
  have hp : parse src = parseAssemble (toks, lexErrs) (runEntryParser toks) := by
    rw [parse, hl]
  rcases runEntryParser_cases toks with ⟨es, hre⟩ | hre <;> rw [hre] at hd hp
  · cases hle : lexErrs with
    | nil =>
      subst hle
      constructor
      · rw [hp]
        simp [parseAssemble, hd, Except.isOk, Except.toBool]
      · intro habs
        rw [hd] at habs
        simp at habs
    | cons d ds =>
      subst hle
      constructor
      · rw [hp, hd]
        simp [parseAssemble, Except.isOk, Except.toBool]
      · intro _
        rw [hp, hd]
        simp [parseAssemble, renderDiag]
  · constructor
    · rw [hp, hd]
      simp [parseAssemble, Except.isOk, Except.toBool]
    · intro _
      rw [hp, hd]
      simp [parseAssemble]

/-- `parse_config` is `ok` exactly when `parse` is. -/
theorem parse_config_isOk (src : String) :
    (Cfg.parse_config src).isOk = (parse src).isOk := by
  unfold Cfg.parse_config
  cases hp : parse src <;> rfl

/-- `parse_config` propagates `parse` errors unchanged. -/
theorem parse_config_error {src : String} {e : RvffConfigError}
    (h : parse src = .error e) : Cfg.parse_config src = .error e := by
  unfold Cfg.parse_config
  rw [h]

/-! ## Text-path metadata defaults (`parse_config`, `read`) -/

/-- Every document the text path returns has enum-table offset `0` and
an empty inherited classname. -/
theorem parse_config_defaults {src : String} {cfg : Cfg}
    (h : Cfg.parse_config src = .ok cfg) :
    cfg.enum_offset = 0 ∧ cfg.inherited_classname = "" := by
  unfold Cfg.parse_config at h
  cases hp : parse src <;> rw [hp] at h
  · cases h
  · cases h
    exact ⟨rfl, rfl⟩

/-- `read` on a source whose header does not validate produces, when it
succeeds, a document with the text path's default metadata. -/
theorem read_text_defaults {data : List Nat} {cfg : Cfg}
    (hv : (Cfg.is_valid_rap_bin ⟨data, 0⟩).1 = false)
    (h : Cfg.read ⟨data, 0⟩ = .ok cfg) :
    cfg.enum_offset = 0 ∧ cfg.inherited_classname = "" := by
  unfold Cfg.read at h
  dsimp only at h
  rw [hv] at h
  simp only [Bool.false_eq_true, if_false] at h
  cases hu : utf8Decode (((Cfg.is_valid_rap_bin ⟨data, 0⟩).2.rewind).data.drop
      ((Cfg.is_valid_rap_bin ⟨data, 0⟩).2.rewind).pos) <;> rw [hu] at h
  · cases h
  · exact parse_config_defaults h

/-! ## Byte-level header facts (`config.rs`) -/

theorem readU8_lt {data : List Nat} {p : Nat} (h : p < data.length) :
    readU8 ⟨data, p⟩ = some (data.getD p 0, ⟨data, p + 1⟩) := by
  unfold readU8
  simp [List.getElem?_eq_getElem h, List.getD]

theorem read_u32_at {data : List Nat} {p : Nat} (h : p + 4 ≤ data.length) :
    read_u32 ⟨data, p⟩ = some (leWordAt data p, ⟨data, p + 4⟩) := by
  have h0 : p < data.length := by omega
  have h1 : p + 1 < data.length := by omega
  have h2 : p + 1 + 1 < data.length := by omega
  have h3 : p + 1 + 1 + 1 < data.length := by omega
  simp only [read_u32, readU8_lt h0, readU8_lt h1, readU8_lt h2, readU8_lt h3]
  rw [show p + 1 + 1 = p + 2 from by omega, show p + 1 + 1 + 1 = p + 3 from by omega,
    show p + 1 + 1 + 1 + 1 = p + 4 from by omega]
  unfold leWordAt
  rfl

/-- Evaluation of header validation on a twelve-byte-or-longer source in
terms of the three little-endian words. -/
theorem is_valid_eval {data : List Nat} (h12 : 12 ≤ data.length) :
    Cfg.is_valid_rap_bin ⟨data, 0⟩ =
      (if leWordAt data 0 = RAP_MAGIC then
        (if leWordAt data 4 = 0 then
          ((decide (leWordAt data 8 = 8) : Bool), (⟨data, 12⟩ : CfgReader))
        else (false, (⟨data, 8⟩ : CfgReader)))
      else (false, (⟨data, 4⟩ : CfgReader))) := by
  unfold Cfg.is_valid_rap_bin
  rw [read_u32_at (p := 0) (by omega)]
  by_cases h0 : leWordAt data 0 = RAP_MAGIC
  · simp only [h0, if_pos rfl]
    rw [show (0 : Nat) + 4 = 4 from rfl, read_u32_at (p := 4) (by omega)]
    by_cases h1 : leWordAt data 4 = 0
    · simp only [h1, if_pos rfl]
      rw [show (4 : Nat) + 4 = 8 from rfl, read_u32_at (p := 8) (by omega)]
    · simp [h1]
  · simp [h0]

/-- `read_config` on a source whose words do not match: immediate
`InvalidFormat`, no fallback. -/
theorem read_config_invalid {data : List Nat}
    (hv : (Cfg.is_valid_rap_bin ⟨data, 0⟩).1 = false) :
    Cfg.read_config ⟨data, 0⟩ = .error .invalidFileError := by
  unfold Cfg.read_config
  dsimp only
  rw [hv]
  rfl

/-- `read` on a source whose header does not validate: rewind and treat
the same full byte sequence as grammar text. -/
theorem read_dispatch_text {data : List Nat} {k : Nat}
    (hv : Cfg.is_valid_rap_bin ⟨data, 0⟩ = (false, ⟨data, k⟩)) :
    Cfg.read ⟨data, 0⟩ =
      (match utf8Decode data with
       | some text => Cfg.parse_config text
       | none => .error .ioError) := by
  unfold Cfg.read
  dsimp only
  rw [hv]
  simp [CfgReader.rewind]

/-- `read` on a source whose header validates: dispatch to the binary
decoder (`read_config`) on the rewound reader. -/
theorem read_dispatch_bin {data : List Nat} {k : Nat}
    (hv : Cfg.is_valid_rap_bin ⟨data, 0⟩ = (true, ⟨data, k⟩)) :
    Cfg.read ⟨data, 0⟩ = Cfg.read_config ⟨data, 0⟩ := by
  unfold Cfg.read
  dsimp only
  rw [hv]
  rfl

/-! ## String-concatenation lexing (`strs`) -/

theorem skipWs_append {w l : List Char} (hw : ∀ c ∈ w, c.isWhitespace) :
    skipWs (w ++ l) = skipWs l := by
  induction w with
  | nil => rfl
  | cons c t ih =>
    show skipWs (c :: (t ++ l)) = skipWs l
    rw [show skipWs (c :: (t ++ l)) =
      (if c.isWhitespace then skipWs (t ++ l) else c :: (t ++ l)) from rfl,
      if_pos (hw c (List.mem_cons_self c t)),
      ih (fun a ha => hw a (List.mem_cons_of_mem _ ha))]

theorem skipWs_head {l : List Char} (h : ∀ c, l.head? = some c → c.isWhitespace = false) :
    skipWs l = l := by
  cases l with
  | nil => rfl
  | cons c t => simp [skipWs, h c rfl]

theorem strContentP_quote {rest' : List Char}
    (hr : ∀ c, rest'.head? = some c → c ≠ '"') :
    strContentP ('"' :: rest') = none := by
  have h1 : pSatisfy (fun c => c != '"') ('"' :: rest') = none := by simp [pSatisfy]
  have h2 : pMap (fun _ => '"') (pJustSeq ['"', '"']) ('"' :: rest') = none := by
    apply pMap_none
    cases rest' with
    | nil => rfl
    | cons c t =>
      have hc : c ≠ '"' := hr c rfl
      simp [pJustSeq, List.isPrefixOf]
      exact fun h => hc h.symm
  unfold strContentP
  rw [pOr_second h1]
  exact h2

theorem strContent_rep : ∀ (s : List Char) (f : Nat) (rest' : List Char),
    s.length < f → (∀ c ∈ s, c ≠ '"') →
    (∀ c, rest'.head? = some c → c ≠ '"') →
    pRepGo strContentP f (s ++ '"' :: rest') = (s, '"' :: rest') := by
  intro s
  induction s with
  | nil =>
    intro f rest' hf hs hr
    cases f with
    | zero => omega
    | succ f' =>
      simp only [List.nil_append, pRepGo, strContentP_quote hr]
  | cons c s' ih =>
    intro f rest' hf hs hr
    cases f with
    | zero => omega
    | succ f' =>
      have hone : strContentP ((c :: s') ++ '"' :: rest') = some (c, s' ++ '"' :: rest') := by
        unfold strContentP
        apply pOr_first
        have hc : (c != '"') = true := by
          simpa using hs c (List.mem_cons_self c s')
        simp [pSatisfy, hc]
      simp only [pRepGo, hone]
      rw [if_pos (by simp)]
      rw [ih f' rest' (by simp at hf ⊢; omega)
        (fun a ha => hs a (List.mem_cons_of_mem _ ha)) hr]

theorem pStrLit_at {s rest' : List Char} (hs : ∀ c ∈ s, c ≠ '"')
    (hr : ∀ c, rest'.head? = some c → c ≠ '"') :
    pStrLit ('"' :: (s ++ '"' :: rest')) = some (Token.Str (String.mk s), rest') := by
  have hq1 : pJust '"' ('"' :: (s ++ '"' :: rest')) = some ('"', s ++ '"' :: rest') := by
    simp [pJust, pSatisfy]
  have hrep : pRepeated strContentP (s ++ '"' :: rest') = some (s, '"' :: rest') := by
    unfold pRepeated
    rw [strContent_rep s ((s ++ '"' :: rest').length + 1) rest' (by simp; omega) hs hr]
  have hq2 : pJust '"' ('"' :: rest') = some ('"', rest') := by simp [pJust, pSatisfy]
  unfold pStrLit
  exact pMap_eq (pThenIgnore_eq (pIgnoreThen_eq hq1 hrep) hq2)

theorem pStringConcat_at {w1 w2 rest : List Char}
    (h1 : ∀ c ∈ w1, c.isWhitespace) (h2 : ∀ c ∈ w2, c.isWhitespace)
    (hr : ∀ c, rest.head? = some c → c.isWhitespace = false) :
    pStringConcat (w1 ++ '\\' :: 'n' :: (w2 ++ rest)) = some (Token.StringConcat, rest) := by
  have hj : pMap (fun _ => Token.StringConcat) (pJustSeq ['\\', 'n'])
      ('\\' :: 'n' :: (w2 ++ rest)) = some (Token.StringConcat, w2 ++ rest) :=
    pMap_eq (show pJustSeq ['\\', 'n'] ('\\' :: 'n' :: (w2 ++ rest)) =
      some (['\\', 'n'], w2 ++ rest) from by simp [pJustSeq, List.isPrefixOf])
  unfold pStringConcat pPadded
  rw [skipWs_append h1, show skipWs ('\\' :: 'n' :: (w2 ++ rest)) =
    '\\' :: 'n' :: (w2 ++ rest) from rfl]
  simp only [hj]
  rw [skipWs_append h2, skipWs_head hr]

theorem renderTail_head_ne_quote {tail : List (List Char × List Char × String)}
    (hOK : ∀ p ∈ tail, ∀ c ∈ p.1, c.isWhitespace) :
    ∀ c, (renderTail tail).head? = some c → c ≠ '"' := by
  cases tail with
  | nil => intro c hc; cases hc
  | cons p t =>
    obtain ⟨w1, w2, s⟩ := p
    intro c hc
    cases hw : w1 with
    | nil =>
      rw [hw] at hc
      simp [renderTail] at hc
      subst hc
      decide
    | cons a t1 =>
      rw [hw] at hc
      simp [renderTail] at hc
      subst hc
      have ha : a.isWhitespace := by
        have := hOK (w1, w2, s) (List.mem_cons_self _ _) a
        rw [hw] at this
        exact this (List.mem_cons_self a t1)
      intro habs
      subst habs
      simp at ha

theorem renderTail_cons_length (w1 w2 : List Char) (s : String)
    (t : List (List Char × List Char × String)) :
    (renderTail ((w1, w2, s) :: t)).length =
      w1.length + w2.length + s.toList.length + 4 + (renderTail t).length := by
  simp [renderTail]
  omega

theorem sepGo_tail : ∀ (tail : List (List Char × List Char × String)) (f : Nat),
    (renderTail tail).length < f →
    (∀ p ∈ tail, (∀ c ∈ p.1, c.isWhitespace) ∧ (∀ c ∈ p.2.1, c.isWhitespace) ∧
      ∀ c ∈ p.2.2.toList, c ≠ '"') →
    pSepGo pStrLit pStringConcat f (renderTail tail) =
      (tail.map (fun p => Token.Str p.2.2), []) := by
  intro tail
  induction tail with
  | nil =>
    intro f hf hOK
    cases f with
    | zero => rfl
    | succ f' =>
      have hn : pThen pStringConcat pStrLit ([] : List Char) = none := pThen_none_left rfl
      simp only [renderTail, pSepGo, hn, List.map_nil]
  | cons p t ih =>
    obtain ⟨w1, w2, s⟩ := p
    intro f hf hOK
    cases f with
    | zero => omega
    | succ f' =>
      have hp := hOK (w1, w2, s) (List.mem_cons_self _ _)
      have hOKt : ∀ q ∈ t, (∀ c ∈ q.1, c.isWhitespace) ∧ (∀ c ∈ q.2.1, c.isWhitespace) ∧
          ∀ c ∈ q.2.2.toList, c ≠ '"' := fun q hq => hOK q (List.mem_cons_of_mem _ hq)
      have hsep : pStringConcat (renderTail ((w1, w2, s) :: t)) =
          some (Token.StringConcat, '"' :: (s.toList ++ '"' :: renderTail t)) := by
        rw [show renderTail ((w1, w2, s) :: t) =
          w1 ++ '\\' :: 'n' :: (w2 ++ ('"' :: (s.toList ++ '"' :: renderTail t))) from rfl]
        exact pStringConcat_at hp.1 hp.2.1 (by intro c hc; cases hc; rfl)
      have hstr : pStrLit ('"' :: (s.toList ++ '"' :: renderTail t)) =
          some (Token.Str s, renderTail t) := by
        have := pStrLit_at hp.2.2
          (renderTail_head_ne_quote (fun q hq => (hOKt q hq).1))
        rwa [show String.mk s.toList = s from rfl] at this
      have hpair := pThen_eq hsep hstr
      simp only [pSepGo, hpair]
      rw [if_pos (by rw [renderTail_cons_length]; omega)]
      rw [ih f' (by rw [renderTail_cons_length] at hf; omega) hOKt]
      rfl

theorem joinStr_eval (first : String) (tail : List (List Char × List Char × String)) :
    joinStrTokens (Token.Str first :: tail.map (fun p => Token.Str p.2.2)) =
      String.intercalate "\n" (first :: tail.map (fun p => p.2.2)) := by
  unfold joinStrTokens
  congr 1
  simp [List.map_map]

theorem pStrs_concat {first : String} {tail : List (List Char × List Char × String)}
    (hOK : concatOK first tail) :
    pStrs (renderConcat first tail) =
      some (Token.Str (String.intercalate "\n" (first :: tail.map (fun p => p.2.2))), []) := by
  have hfirst : pStrLit (renderConcat first tail) = some (Token.Str first, renderTail tail) := by
    have := pStrLit_at hOK.1 (renderTail_head_ne_quote (fun q hq => (hOK.2 q hq).1))
    rwa [show String.mk first.toList = first from rfl] at this
  have hsep1 : pSepBy1 pStrLit pStringConcat (renderConcat first tail) =
      some (Token.Str first :: tail.map (fun p => Token.Str p.2.2), []) := by
    simp only [pSepBy1, hfirst]
    rw [sepGo_tail tail ((renderTail tail).length + 1) (by omega) hOK.2]
  unfold pStrs
  apply pOr_first
  rw [pMap_eq hsep1, joinStr_eval]

theorem pToken_concat {first : String} {tail : List (List Char × List Char × String)}
    (hOK : concatOK first tail) :
    pToken (renderConcat first tail) =
      some (Token.Str (String.intercalate "\n" (first :: tail.map (fun p => p.2.2))), []) := by
  unfold pToken
  rw [pOr_second (show pNum (renderConcat first tail) = none from rfl)]
  exact pOr_first (pStrs_concat hOK)

/-- The lexer turns a whole rendered string-concatenation run into one
`Str` token whose text is the components joined with newlines. -/
theorem lexer_concat {first : String} {tail : List (List Char × List Char × String)}
    (hOK : concatOK first tail) :
    ∃ sp, lexer (String.mk (renderConcat first tail)) =
      ([(Token.Str (String.intercalate "\n" (first :: tail.map (fun p => p.2.2))), sp)], []) := by
  have hskip : skipLead (renderConcat first tail) =
      '"' :: (first.toList ++ '"' :: renderTail tail) := rfl
  have htok : pToken ('"' :: (first.toList ++ '"' :: renderTail tail)) =
      some (Token.Str (String.intercalate "\n" (first :: tail.map (fun p => p.2.2))), []) :=
    pToken_concat hOK
  have hstep := lexStep_eq_tok 0 hskip htok
  have hstepnil : ∀ p, lexStep [] p = none := fun p => lexStep_eq_nil rfl
  simp only [show lexer (String.mk (renderConcat first tail)) =
    lexGo ((first.toList ++ '"' :: renderTail tail).length + 1 + 1)
      (renderConcat first tail) 0 [] [] from rfl]
  simp only [lexGo, hstep]
  simp only [show skipTrail [] = [] from rfl]
  simp only [lexGo, hstepnil]
  simp only [List.reverse_cons, List.reverse_nil, List.nil_append]
  exact ⟨_, rfl⟩

/-! ## Nested-array lexing and parsing -/

theorem spanify_append (a b : List Token) (p : Nat) :
    spanify (a ++ b) p = spanify a p ++ spanify b (p + a.length) := by
  induction a generalizing p with
  | nil => simp [spanify]
  | cons t ts ih =>
    show spanify (t :: (ts ++ b)) p = spanify (t :: ts) p ++ spanify b (p + (t :: ts).length)
    rw [show spanify (t :: (ts ++ b)) p = (t, (p, p + 1)) :: spanify (ts ++ b) (p + 1) from rfl,
      ih, show spanify (t :: ts) p = (t, (p, p + 1)) :: spanify ts (p + 1) from rfl]
    simp only [List.length_cons, List.cons_append]
    rw [show p + 1 + ts.length = p + (ts.length + 1) from by omega]

theorem spanify_length (a : List Token) (p : Nat) : (spanify a p).length = a.length := by
  induction a generalizing p with
  | nil => rfl
  | cons t ts ih => simp [spanify, ih]

theorem nestToks_length (n : Nat) : (nestToks n).length = 2 * n + 1 := by
  induction n with
  | zero => rfl
  | succ n ih => simp [nestToks, ih]; omega

theorem nestChars_length (n : Nat) : (nestChars n).length = 2 * n + 1 := by
  induction n with
  | zero => rfl
  | succ n ih => simp [nestChars, ih]; omega

/-- One lexing step that consumes exactly one character and produces one
token (covers every token of the nested-array sources). -/
theorem lexGo_step1 {c : Char} {t cs : List Char} {tok : Token} {f pos : Nat}
    {acc : List (Token × Span)} {diags : List Diag}
    (hskip : skipLead (c :: t) = c :: t)
    (htok : pToken (c :: t) = some (tok, cs))
    (hlen : t.length = cs.length)
    (htrail : skipTrail cs = cs) :
    lexGo (f + 1) (c :: t) pos acc diags =
      lexGo f cs (pos + 1) ((tok, (pos, pos + 1)) :: acc) diags := by
  have hstep := lexStep_eq_tok pos hskip htok
  rw [htrail] at hstep
  simp only [List.length_cons, Nat.sub_self, Nat.add_zero] at hstep
  rw [show t.length + 1 - cs.length = 1 from by omega] at hstep
  simp only [lexGo, hstep]

theorem skipTrail_nest (n : Nat) (l : List Char) :
    skipTrail (nestChars n ++ l) = nestChars n ++ l := by
  cases n with
  | zero => rfl
  | succ n => rfl

theorem skipTrail_close {cs : List Char} (h : closeHead cs) : skipTrail cs = cs := by
  rcases cs with _ | ⟨c, t⟩
  · rfl
  · rcases h with h | h <;> (rw [List.head?_cons] at h; injection h with h; subst h) <;> rfl

/-- Lexing a depth-`n` nested literal consumes its `2n + 1` characters
as `2n + 1` one-character tokens. -/
theorem lexGo_nest : ∀ (n : Nat) (cs : List Char) (f pos : Nat)
    (acc : List (Token × Span)) (diags : List Diag), closeHead cs →
    lexGo (f + (2 * n + 1)) (nestChars n ++ cs) pos acc diags =
      lexGo f cs (pos + (2 * n + 1)) ((spanify (nestToks n) pos).reverse ++ acc) diags := by
  intro n
  induction n with
  | zero =>
    intro cs f pos acc diags hclose
    rcases cs with _ | ⟨c, t⟩
    · rcases hclose with h | h <;> cases h
    · rcases hclose with h | h <;> (rw [List.head?_cons] at h; injection h with h; subst h)
      · rw [show nestChars 0 ++ '\x7d' :: t = '1' :: '\x7d' :: t from rfl,
          show 2 * 0 + 1 = 1 from rfl,
          lexGo_step1 (show skipLead ('1' :: '\x7d' :: t) = '1' :: '\x7d' :: t from rfl)
            (show pToken ('1' :: '\x7d' :: t) = some (Token.Num "1", '\x7d' :: t) from rfl)
            rfl (show skipTrail ('\x7d' :: t) = '\x7d' :: t from rfl)]
        simp [spanify, nestToks]
      · rw [show nestChars 0 ++ ';' :: t = '1' :: ';' :: t from rfl,
          show 2 * 0 + 1 = 1 from rfl,
          lexGo_step1 (show skipLead ('1' :: ';' :: t) = '1' :: ';' :: t from rfl)
            (show pToken ('1' :: ';' :: t) = some (Token.Num "1", ';' :: t) from rfl)
            rfl (show skipTrail (';' :: t) = ';' :: t from rfl)]
        simp [spanify, nestToks]
  | succ n ih =>
    intro cs f pos acc diags hclose
    rw [show nestChars (n + 1) ++ cs = '\x7b' :: (nestChars n ++ ('\x7d' :: cs)) from by
      simp [nestChars]]
    rw [show f + (2 * (n + 1) + 1) = (f + 1 + (2 * n + 1)) + 1 from by omega]
    rw [lexGo_step1
      (show skipLead ('\x7b' :: (nestChars n ++ ('\x7d' :: cs))) =
        '\x7b' :: (nestChars n ++ ('\x7d' :: cs)) from rfl)
      (show pToken ('\x7b' :: (nestChars n ++ ('\x7d' :: cs))) =
        some (Token.Ctrl '\x7b', nestChars n ++ ('\x7d' :: cs)) from rfl)
      rfl (skipTrail_nest n ('\x7d' :: cs))]
    rw [ih ('\x7d' :: cs) (f + 1) (pos + 1) _ _ (Or.inl rfl)]
    rw [lexGo_step1
      (show skipLead ('\x7d' :: cs) = '\x7d' :: cs from rfl)
      (show pToken ('\x7d' :: cs) = some (Token.Ctrl '\x7d', cs) from rfl)
      rfl (skipTrail_close hclose)]
    rw [show pos + 1 + (2 * n + 1) + 1 = pos + (2 * (n + 1) + 1) from by omega]
    congr 1
    rw [show nestToks (n + 1) = Token.Ctrl '\x7b' :: (nestToks n ++ [Token.Ctrl '\x7d']) from rfl]
    simp only [spanify, spanify_append, List.reverse_cons, List.reverse_append,
      nestToks_length, spanify_length, List.reverse_nil, List.nil_append,
      List.cons_append, List.append_assoc, List.singleton_append]
    rw [show pos + (2 * (n + 1) + 1) = pos + 1 + (2 * n + 1) + 1 from by omega]
/-- Evaluation of an array literal holding exactly one element followed
by the closing brace. -/
theorem arrVals_single {f : Nat} {toks rest : List (Token × Span)} {sp0 sq : Span}
    {item : ValueExpr × Span}
    (hitem : pOr tVal (arrVals f) toks = some (item, (Token.Ctrl '\x7d', sq) :: rest)) :
    arrVals (f + 1) ((Token.Ctrl '\x7b', sp0) :: toks) =
      some ((ValueExpr.array [item],
        consumedSpan ((Token.Ctrl '\x7b', sp0) :: toks) rest), rest) := by
  have hopen : tJust (Token.Ctrl '\x7b') ((Token.Ctrl '\x7b', sp0) :: toks) =
      some (Token.Ctrl '\x7b', toks) := rfl
  have hfail : pThen (tJust (Token.Ctrl ',')) (pOr tVal (arrVals f))
      ((Token.Ctrl '\x7d', sq) :: rest) = none :=
    pThen_none_left rfl
  have hsg : pSepGo (pOr tVal (arrVals f)) (tJust (Token.Ctrl ','))
      (rest.length + 1 + 1) ((Token.Ctrl '\x7d', sq) :: rest) =
      ([], (Token.Ctrl '\x7d', sq) :: rest) := by
    simp only [pSepGo, hfail]
  have hsbt : pSepByTrailing (pOr tVal (arrVals f)) (tJust (Token.Ctrl ',')) toks =
      some ([item], (Token.Ctrl '\x7d', sq) :: rest) := by
    simp only [pSepByTrailing, hitem, List.length_cons, hsg]
    rfl
  have hclose : tJust (Token.Ctrl '\x7d') ((Token.Ctrl '\x7d', sq) :: rest) =
      some (Token.Ctrl '\x7d', rest) := rfl
  rw [show arrVals (f + 1) = tWithSpan (pMap ValueExpr.array
      (pThenIgnore
        (pIgnoreThen (tJust (Token.Ctrl '\x7b'))
          (pSepByTrailing (pOr tVal (arrVals f)) (tJust (Token.Ctrl ','))))
        (tJust (Token.Ctrl '\x7d')))) from rfl]
  rw [tWithSpan_eq (pMap_eq (pThenIgnore_eq (pIgnoreThen_eq hopen hsbt) hclose))]

/-- The array-literal rule on a depth-`n + 1` nested literal: any fuel
above the depth parses it, and any conversion fuel above the depth
computes the expected nested document value. -/
theorem arrVals_nest : ∀ (n f p : Nat) (rest : List (Token × Span)), n < f →
    ∃ ve sp, arrVals f (spanify (nestToks (n + 1)) p ++ rest) = some ((ve, sp), rest) ∧
      ∀ g, n + 1 ≤ g → valueToCfg g ve = nestedCfg (n + 1) := by
  intro n
  induction n with
  | zero =>
    intro f p rest hf
    obtain ⟨f', rfl⟩ : ∃ f', f = f' + 1 := ⟨f - 1, by omega⟩
    rw [show spanify (nestToks 1) p ++ rest =
      (Token.Ctrl '\x7b', (p, p + 1)) :: ((Token.Num "1", (p + 1, p + 1 + 1)) ::
        (Token.Ctrl '\x7d', (p + 1 + 1, p + 1 + 1 + 1)) :: rest) from by
        simp [nestToks, spanify]]
    have hval := @tVal_num "1" (p + 1, p + 1 + 1)
      ((Token.Ctrl '\x7d', (p + 1 + 1, p + 1 + 1 + 1)) :: rest) (ValueExpr.long 1)
      (show numValue "1" = some (ValueExpr.long 1) from rfl)
    have hitem : pOr tVal (arrVals f')
        ((Token.Num "1", (p + 1, p + 1 + 1)) ::
          (Token.Ctrl '\x7d', (p + 1 + 1, p + 1 + 1 + 1)) :: rest) =
        some ((ValueExpr.long 1, (p + 1, p + 1 + 1)),
          (Token.Ctrl '\x7d', (p + 1 + 1, p + 1 + 1 + 1)) :: rest) :=
      pOr_first hval
    refine ⟨_, _, arrVals_single hitem, ?_⟩
    intro g hg
    obtain ⟨g', rfl⟩ : ∃ g', g = g' + 1 := ⟨g - 1, by omega⟩
    simp [valueToCfg, nestedCfg]
  | succ n ih =>
    intro f p rest hf
    obtain ⟨f', rfl⟩ : ∃ f', f = f' + 1 := ⟨f - 1, by omega⟩
    rw [show spanify (nestToks (n + 1 + 1)) p ++ rest =
      (Token.Ctrl '\x7b', (p, p + 1)) :: (spanify (nestToks (n + 1)) (p + 1) ++
        ((Token.Ctrl '\x7d',
          (p + 1 + (2 * (n + 1) + 1), p + 1 + (2 * (n + 1) + 1) + 1)) :: rest)) from by
        rw [show nestToks (n + 1 + 1) =
          Token.Ctrl '\x7b' :: (nestToks (n + 1) ++ [Token.Ctrl '\x7d']) from rfl]
        simp [spanify, spanify_append, nestToks_length]
        omega]
    obtain ⟨ve', sp', heq, hconv⟩ := ih f' (p + 1)
      ((Token.Ctrl '\x7d',
        (p + 1 + (2 * (n + 1) + 1), p + 1 + (2 * (n + 1) + 1) + 1)) :: rest) (by omega)
    have htv : tVal (spanify (nestToks (n + 1)) (p + 1) ++
        ((Token.Ctrl '\x7d',
          (p + 1 + (2 * (n + 1) + 1), p + 1 + (2 * (n + 1) + 1) + 1)) :: rest)) = none := by
      rw [show nestToks (n + 1) =
        Token.Ctrl '\x7b' :: (nestToks n ++ [Token.Ctrl '\x7d']) from rfl]
      rfl
    have hitem : pOr tVal (arrVals f') (spanify (nestToks (n + 1)) (p + 1) ++
        ((Token.Ctrl '\x7d',
          (p + 1 + (2 * (n + 1) + 1), p + 1 + (2 * (n + 1) + 1) + 1)) :: rest)) =
        some ((ve', sp'),
          (Token.Ctrl '\x7d',
            (p + 1 + (2 * (n + 1) + 1), p + 1 + (2 * (n + 1) + 1) + 1)) :: rest) := by
      rw [pOr_second htv]
      exact heq
    refine ⟨_, _, arrVals_single hitem, ?_⟩
    intro g hg
    obtain ⟨g', rfl⟩ : ∃ g', g = g' + 1 := ⟨g - 1, by omega⟩
    rw [show nestedCfg (n + 1 + 1) = CfgValue.array [nestedCfg (n + 1)] from rfl]
    simp only [valueToCfg, List.map_cons, List.map_nil]
    rw [hconv g' (by omega)]
/-- Lexing stops with the accumulated results on empty input. -/
theorem lexGo_nil {f pos : Nat} {acc : List (Token × Span)} {diags : List Diag} :
    lexGo (f + 1) [] pos acc diags = (acc.reverse, diags.reverse) := by
  simp only [lexGo, lexStep_eq_nil (show skipLead [] = ([] : List Char) from rfl)]

theorem lexStep_a {t : List Char} {f pos : Nat} {acc : List (Token × Span)}
    {diags : List Diag} :
    lexGo (f + 1) ('a' :: '[' :: t) pos acc diags =
      lexGo f ('[' :: t) (pos + 1) ((Token.Ident "a", (pos, pos + 1)) :: acc) diags :=
  lexGo_step1 (show skipLead ('a' :: '[' :: t) = 'a' :: '[' :: t from rfl)
    (show pToken ('a' :: '[' :: t) = some (Token.Ident "a", '[' :: t) from rfl)
    rfl (show skipTrail ('[' :: t) = '[' :: t from rfl)

theorem lexStep_lb {t : List Char} {f pos : Nat} {acc : List (Token × Span)}
    {diags : List Diag} :
    lexGo (f + 1) ('[' :: ']' :: t) pos acc diags =
      lexGo f (']' :: t) (pos + 1) ((Token.Ctrl '[', (pos, pos + 1)) :: acc) diags :=
  lexGo_step1 (show skipLead ('[' :: ']' :: t) = '[' :: ']' :: t from rfl)
    (show pToken ('[' :: ']' :: t) = some (Token.Ctrl '[', ']' :: t) from rfl)
    rfl (show skipTrail (']' :: t) = ']' :: t from rfl)

theorem lexStep_rb {t : List Char} {f pos : Nat} {acc : List (Token × Span)}
    {diags : List Diag} :
    lexGo (f + 1) (']' :: '=' :: t) pos acc diags =
      lexGo f ('=' :: t) (pos + 1) ((Token.Ctrl ']', (pos, pos + 1)) :: acc) diags :=
  lexGo_step1 (show skipLead (']' :: '=' :: t) = ']' :: '=' :: t from rfl)
    (show pToken (']' :: '=' :: t) = some (Token.Ctrl ']', '=' :: t) from rfl)
    rfl (show skipTrail ('=' :: t) = '=' :: t from rfl)

theorem lexStep_eq_ctl {n f pos : Nat} {acc : List (Token × Span)} {diags : List Diag} :
    lexGo (f + 1) ('=' :: (nestChars (n + 1) ++ [';'])) pos acc diags =
      lexGo f (nestChars (n + 1) ++ [';']) (pos + 1)
        ((Token.Ctrl '=', (pos, pos + 1)) :: acc) diags :=
  lexGo_step1
    (show skipLead ('=' :: (nestChars (n + 1) ++ [';'])) =
      '=' :: (nestChars (n + 1) ++ [';']) from rfl)
    (show pToken ('=' :: (nestChars (n + 1) ++ [';'])) =
      some (Token.Ctrl '=', nestChars (n + 1) ++ [';']) from rfl)
    rfl (skipTrail_nest (n + 1) [';'])

theorem lexStep_semi {f pos : Nat} {acc : List (Token × Span)} {diags : List Diag} :
    lexGo (f + 1) [';'] pos acc diags =
      lexGo f [] (pos + 1) ((Token.Ctrl ';', (pos, pos + 1)) :: acc) diags :=
  lexGo_step1 (show skipLead [';'] = [';'] from rfl)
    (show pToken [';'] = some (Token.Ctrl ';', []) from rfl)
    rfl (show skipTrail ([] : List Char) = [] from rfl)

/-- Lexing the nested-array property source yields the expected token
stream and no diagnostics, for every nesting depth. -/
theorem lexer_arr (n : Nat) :
    lexer (String.mk (arrSrcChars n)) =
      ((Token.Ident "a", (0, 1)) :: (Token.Ctrl '[', (1, 2)) :: (Token.Ctrl ']', (2, 3)) ::
        (Token.Ctrl '=', (3, 4)) :: (spanify (nestToks (n + 1)) 4 ++
          [(Token.Ctrl ';', (4 + (2 * (n + 1) + 1), 4 + (2 * (n + 1) + 1) + 1))]), []) := by
  rw [show lexer (String.mk (arrSrcChars n)) =
      lexGo ((arrSrcChars n).length + 1) (arrSrcChars n) 0 [] [] from rfl]
  rw [show (arrSrcChars n).length + 1 =
      (((((1 + 1) + (2 * (n + 1) + 1)) + 1) + 1) + 1) + 1 from by
    simp only [arrSrcChars, List.length_cons, List.length_append, List.length_nil,
      nestChars_length]
    omega]
  rw [show arrSrcChars n = 'a' :: '[' :: ']' :: '=' :: (nestChars (n + 1) ++ [';']) from rfl]
  rw [lexStep_a, lexStep_lb, lexStep_rb, lexStep_eq_ctl]
  rw [lexGo_nest (n + 1) [';'] (1 + 1) (0 + 1 + 1 + 1 + 1) _ _ (Or.inr rfl)]
  rw [lexStep_semi]
  rw [show (1 : Nat) = 0 + 1 from rfl, lexGo_nil]
  simp
/-- The grammar parser accepts the nested-array token stream at every
depth, producing a single array-property entry whose conversion to the
document model is the expected nested array value. -/
theorem runEntryParser_arr (n : Nat) :
    ∃ ve sp1 sp2, runEntryParser (arrToks n) =
        (some [(EntryExpr.prop "a" (ve, sp1), sp2)], []) ∧
      ∀ g, n + 1 ≤ g → valueToCfg g ve = nestedCfg (n + 1) := by
  obtain ⟨ve, sp, harr, hconv⟩ := arrVals_nest n (2 * n + 8 + 1) 4
    [(Token.Ctrl ';', (4 + (2 * (n + 1) + 1), 4 + (2 * (n + 1) + 1) + 1))] (by omega)
  have hlenTL : (arrToks n).length + 1 = 2 * n + 8 + 1 := by
    simp only [arrToks, List.length_cons, List.length_append, List.length_nil,
      spanify_length, nestToks_length]
    omega
  have hpre : pThenIgnore (pThenIgnore (pThenIgnore tIdentP (tJust (Token.Ctrl '[')))
      (tJust (Token.Ctrl ']'))) (tJust (Token.Ctrl '=')) (arrToks n) =
      some ("a", spanify (nestToks (n + 1)) 4 ++
        [(Token.Ctrl ';', (4 + (2 * (n + 1) + 1), 4 + (2 * (n + 1) + 1) + 1))]) :=
    pThenIgnore_eq (pThenIgnore_eq (pThenIgnore_eq rfl rfl) rfl) rfl
  have hbody := pThen_eq hpre harr
  have hsemi : tJust (Token.Ctrl ';')
      [((Token.Ctrl ';' : Token), (4 + (2 * (n + 1) + 1), 4 + (2 * (n + 1) + 1) + 1))] =
      some (Token.Ctrl ';', []) := rfl
  have hfull := pThenIgnore_eq hbody hsemi
  have hpa : tPropArr (2 * n + 8 + 1) (arrToks n) =
      some ((EntryExpr.prop "a" (ve, sp), consumedSpan (arrToks n) []), []) := by
    rw [tPropArr]
    exact tWithSpan_eq (pMap_eq hfull)
  have hentry : pOr (tClassP (2 * n + 8 + 1)) (tEntry (2 * n + 8 + 1)) (arrToks n) =
      some ((EntryExpr.prop "a" (ve, sp), consumedSpan (arrToks n) []), []) := by
    rw [pOr_second (show tClassP (2 * n + 8 + 1) (arrToks n) = none from rfl)]
    rw [tEntry, pOr_second (show tProp (arrToks n) = none from rfl)]
    exact pOr_first hpa
  have hnil : pRepGo (pOr (tClassP (2 * n + 8 + 1)) (tEntry (2 * n + 8 + 1))) (2 * n + 8)
      ([] : List (Token × Span)) = ([], []) := rfl
  have hrep : pRepGo (pOr (tClassP (2 * n + 8 + 1)) (tEntry (2 * n + 8 + 1))) (2 * n + 8 + 1)
      (arrToks n) =
      ([(EntryExpr.prop "a" (ve, sp), consumedSpan (arrToks n) [])], []) := by
    rw [pRepGo, hentry]
    simp only [List.length_nil, hnil]
    rw [if_pos (show 0 < (arrToks n).length from by omega)]
  have hrepd : pRepeated (pOr (tClassP (2 * n + 8 + 1)) (tEntry (2 * n + 8 + 1)))
      (arrToks n) =
      some ([(EntryExpr.prop "a" (ve, sp), consumedSpan (arrToks n) [])], []) := by
    rw [pRepeated, hlenTL, hrep]
  have htop : tTop (2 * n + 8 + 1) (arrToks n) =
      some ([(EntryExpr.prop "a" (ve, sp), consumedSpan (arrToks n) [])], []) := by
    rw [tTop]
    exact pThenIgnore_eq hrepd (show tEnd ([] : List (Token × Span)) = some ((), []) from rfl)
  refine ⟨ve, sp, consumedSpan (arrToks n) [], ?_, hconv⟩
  rw [runEntryParser, hlenTL, htop]

/-- Whole text pipeline on the nested-array property source, for every
nesting depth: the decoded document is one array property holding the
expected nested array value. -/
theorem parse_config_arr (n : Nat) :
    Cfg.parse_config (String.mk (arrSrcChars n)) =
      .ok ⟨0, "", [CfgEntry.property "a" (nestedCfg (n + 1))]⟩ := by
  obtain ⟨ve, sp1, sp2, hrun, hconv⟩ := runEntryParser_arr n
  have hlex : lexer (String.mk (arrSrcChars n)) = (arrToks n, []) := lexer_arr n
  have hparse : parse (String.mk (arrSrcChars n)) =
      .ok [CfgEntry.property "a" (nestedCfg (n + 1))] := by
    rw [parse, hlex]
    rw [show ((arrToks n, ([] : List Diag)) : List (Token × Span) × List Diag).1 =
      arrToks n from rfl, hrun]
    simp only [parseAssemble]
    rw [if_pos (show (([] : List Diag)).length + (([] : List Diag)).length = 0 from rfl)]
    simp only [List.map_cons, List.map_nil, entryToCfg]
    rw [hconv ((arrToks n, ([] : List Diag)).1.length + 1) (by
      simp only [arrToks, List.length_cons, List.length_append, List.length_nil,
        spanify_length, nestToks_length]
      omega)]
  unfold Cfg.parse_config
  rw [hparse]
/-! ## Claim theorems -/

/-- Saturation bounds of the `as i32` cast model. -/
theorem asI32_sat (t : Int) :
    -2147483648 ≤ (if t < -(2 ^ 31) then -(2 ^ 31)
      else if (2 ^ 31 - 1 : Int) < t then 2 ^ 31 - 1 else t) ∧
    (if t < -(2 ^ 31) then -(2 ^ 31)
      else if (2 ^ 31 - 1 : Int) < t then 2 ^ 31 - 1 else t) ≤ 2147483647 := by
  by_cases h1 : t < -(2 ^ 31)
  · rw [if_pos h1]; norm_num
  · rw [if_neg h1]
    by_cases h2 : (2 ^ 31 - 1 : Int) < t
    · rw [if_pos h2]; norm_num
    · rw [if_neg h2]
      norm_num at h1 h2
      omega

/-- C1: a scalar property whose value lexed as a numeric token (the lexer
kept the raw text `n`) decodes by re-parsing that text as an f32 in the
grammar parser, which yields an integer value when the float's
fractional part is zero and a float value otherwise. -/
theorem claim_C1 {src x n : String} {s1 s2 s3 s4 : Span}
    (h : lexer src = ([(.Ident x, s1), (.Ctrl '=', s2), (.Num n, s3), (.Ctrl ';', s4)], [])) :
    ∃ fv, parseF32 n = some fv ∧
      Cfg.parse_config src = .ok ⟨0, "",
        [CfgEntry.property x
          (if fv.fractNZ then CfgValue.float fv else CfgValue.long fv.asI32)]⟩ :=
  parse_lexed_scalar h

/-- C1 witness: the pipeline on `x=1.5;`, whose value lexes to the
numeric token `1.5`. -/
theorem claim_C1_witness :
    lexer "x=1.5;" = ([(.Ident "x", (0, 1)), (.Ctrl '=', (1, 2)), (.Num "1.5", (2, 5)),
      (.Ctrl ';', (5, 6))], []) ∧
    ∃ fv, parseF32 "1.5" = some fv ∧
      Cfg.parse_config "x=1.5;" = .ok ⟨0, "",
        [CfgEntry.property "x"
          (if fv.fractNZ then CfgValue.float fv else CfgValue.long fv.asI32)]⟩ :=
  ⟨rfl, claim_C1 rfl⟩

/-- C2 counterexample: `x=1.0;` and `x=1e2;` decode to INTEGER values 1
and 100 (the re-parsed floats 1.0 and 100.0 have zero fractional part),
not to float values as the claim states. -/
theorem claim_C2_counterexample :
    Cfg.parse_config "x=1.0;" = .ok ⟨0, "", [CfgEntry.property "x" (CfgValue.long 1)]⟩ ∧
    Cfg.parse_config "x=1e2;" = .ok ⟨0, "", [CfgEntry.property "x" (CfgValue.long 100)]⟩ :=
  ⟨rfl, rfl⟩

/-- C2 (amended): `x=1;`, `x=1.0;` and `x=1e2;` all decode to integer
values (1, 1 and 100), since each re-parsed float has zero fractional
part. -/
theorem claim_C2 :
    Cfg.parse_config "x=1;" = .ok ⟨0, "", [CfgEntry.property "x" (CfgValue.long 1)]⟩ ∧
    Cfg.parse_config "x=1.0;" = .ok ⟨0, "", [CfgEntry.property "x" (CfgValue.long 1)]⟩ ∧
    Cfg.parse_config "x=1e2;" = .ok ⟨0, "", [CfgEntry.property "x" (CfgValue.long 100)]⟩ :=
  ⟨rfl, rfl, rfl⟩

/-- C3: a text decode succeeds exactly when no diagnostic was collected,
and any diagnostics convert the whole call into one ParseError
aggregating every collected diagnostic; no partial document escapes. -/
theorem claim_C3 (src : String) :
    ((Cfg.parse_config src).isOk ↔ diagnostics src = []) ∧
    (diagnostics src ≠ [] →
      Cfg.parse_config src = .error (.rvffParseError
        (String.intercalate "
" ((diagnostics src).map renderDiag)))) := by
  obtain ⟨h1, h2⟩ := parse_diag_spec src
  refine ⟨?_, fun hne => parse_config_error (h2 hne)⟩
  rw [parse_config_isOk]
  exact h1

/-- C3 witness: the source `?` produces a lexer diagnostic, and the call
returns the aggregated ParseError. -/
theorem claim_C3_witness :
    Cfg.parse_config "?" = .error (.rvffParseError
      (String.intercalate "
" ((diagnostics "?").map renderDiag))) :=
  (claim_C3 "?").2 (by
    rw [show diagnostics "?" = [⟨(0, 1), "unexpected character"⟩] from rfl]
    simp)

/-- C4: on a source whose first three little-endian words are not
(1348563456, 0, 8), `read_config` fails with the invalid-file error and
performs no fallback, while `read` decodes the same full byte sequence
as grammar text; when the three words match, `read` dispatches to the
binary decoder. -/
theorem claim_C4 {data : List Nat} (h12 : 12 ≤ data.length) :
    (¬ (leWordAt data 0 = RAP_MAGIC ∧ leWordAt data 4 = 0 ∧ leWordAt data 8 = 8) →
      Cfg.read_config ⟨data, 0⟩ = .error .invalidFileError ∧
      Cfg.read ⟨data, 0⟩ = (match utf8Decode data with
        | some text => Cfg.parse_config text
        | none => .error .ioError)) ∧
    ((leWordAt data 0 = RAP_MAGIC ∧ leWordAt data 4 = 0 ∧ leWordAt data 8 = 8) →
      Cfg.read ⟨data, 0⟩ = Cfg.read_config ⟨data, 0⟩) := by
  have hval := is_valid_eval h12
  by_cases h0 : leWordAt data 0 = RAP_MAGIC
  · by_cases h1 : leWordAt data 4 = 0
    · by_cases h2 : leWordAt data 8 = 8
      · have hv : Cfg.is_valid_rap_bin ⟨data, 0⟩ = (true, ⟨data, 12⟩) := by
          rw [hval, if_pos h0, if_pos h1]
          simp [h2]
        exact ⟨fun hn => absurd ⟨h0, h1, h2⟩ hn, fun _ => read_dispatch_bin hv⟩
      · have hv : Cfg.is_valid_rap_bin ⟨data, 0⟩ = (false, ⟨data, 12⟩) := by
          rw [hval, if_pos h0, if_pos h1]
          simp [h2]
        have hvf : (Cfg.is_valid_rap_bin ⟨data, 0⟩).1 = false := by rw [hv]
        exact ⟨fun _ => ⟨read_config_invalid hvf, read_dispatch_text hv⟩,
          fun hy => absurd hy.2.2 h2⟩
    · have hv : Cfg.is_valid_rap_bin ⟨data, 0⟩ = (false, ⟨data, 8⟩) := by
        rw [hval, if_pos h0, if_neg h1]
      have hvf : (Cfg.is_valid_rap_bin ⟨data, 0⟩).1 = false := by rw [hv]
      exact ⟨fun _ => ⟨read_config_invalid hvf, read_dispatch_text hv⟩,
        fun hy => absurd hy.2.1 h1⟩
  · have hv : Cfg.is_valid_rap_bin ⟨data, 0⟩ = (false, ⟨data, 4⟩) := by
      rw [hval, if_neg h0]
    have hvf : (Cfg.is_valid_rap_bin ⟨data, 0⟩).1 = false := by rw [hv]
    exact ⟨fun _ => ⟨read_config_invalid hvf, read_dispatch_text hv⟩,
      fun hy => absurd hy.1 h0⟩

/-- C4 witness: twelve zero bytes (wrong magic) take the error and text
paths; a source starting with the valid header words dispatches to the
binary decoder. -/
theorem claim_C4_witness :
    (Cfg.read_config ⟨[0, 0, 0, 0, 0, 0, 0, 0, 0, 0, 0, 0], 0⟩ = .error .invalidFileError ∧
      Cfg.read ⟨[0, 0, 0, 0, 0, 0, 0, 0, 0, 0, 0, 0], 0⟩ =
        (match utf8Decode [0, 0, 0, 0, 0, 0, 0, 0, 0, 0, 0, 0] with
         | some text => Cfg.parse_config text
         | none => .error .ioError)) ∧
    Cfg.read ⟨[0, 114, 97, 80, 0, 0, 0, 0, 8, 0, 0, 0], 0⟩ =
      Cfg.read_config ⟨[0, 114, 97, 80, 0, 0, 0, 0, 8, 0, 0, 0], 0⟩ := by
  constructor
  · exact (claim_C4 (by decide)).1 (by decide)
  · exact (claim_C4 (by decide)).2 (by decide)

/-- C5: a well-formed run of quoted strings separated by literal
backslash-n sequences lexes to one string token whose text joins the
components with newline characters, and `s = "a" \n "b";` decodes to the
string property `a`-newline-`b`. -/
theorem claim_C5 {first : String} {tail : List (List Char × List Char × String)}
    (h : concatOK first tail) :
    (∃ sp, lexer (String.mk (renderConcat first tail)) =
      ([(Token.Str (String.intercalate "\n" (first :: tail.map (fun p => p.2.2))), sp)],
        [])) ∧
    Cfg.parse_config "s = \"a\" \\n \"b\";" =
      .ok ⟨0, "", [CfgEntry.property "s" (CfgValue.string "a\nb")]⟩ :=
  ⟨lexer_concat h, rfl⟩

/-- C5 witness: the two-component run `"a" \n "b"`. -/
theorem claim_C5_witness :
    (∃ sp, lexer (String.mk (renderConcat "a" [([' '], [' '], "b")])) =
      ([(Token.Str (String.intercalate "\n"
          ("a" :: ([([' '], [' '], "b")].map (fun p => p.2.2)))), sp)], [])) ∧
    Cfg.parse_config "s = \"a\" \\n \"b\";" =
      .ok ⟨0, "", [CfgEntry.property "s" (CfgValue.string "a\nb")]⟩ :=
  claim_C5 (by unfold concatOK; decide)

/-- C6: `a[] = \x7b1,2,\x7b3,4\x7d,\x7d;` decodes to the array value
[1, 2, [3, 4]] (trailing comma ignored, nested array preserved), and
array literals nest to arbitrary depth: at every depth `n + 1` the
nested source decodes to the expected nested array value. -/
theorem claim_C6 :
    Cfg.parse_config "a[] = \x7b1,2,\x7b3,4\x7d,\x7d;" =
      .ok ⟨0, "", [CfgEntry.property "a" (CfgValue.array
        [CfgValue.long 1, CfgValue.long 2,
          CfgValue.array [CfgValue.long 3, CfgValue.long 4]])]⟩ ∧
    ∀ n : Nat, Cfg.parse_config (String.mk (arrSrcChars n)) =
      .ok ⟨0, "", [CfgEntry.property "a" (nestedCfg (n + 1))]⟩ :=
  ⟨rfl, parse_config_arr⟩

/-- C7 counterexample: in the document decoded from
`A=1; class A \x7b x=5; \x7d;`, the first entry is a name match for the
first path segment but the wrong variant for the remaining path (its
lookup fails), yet the scan continues and the lookup still resolves
through the later class — the scan does continue past a failed name
match. -/
theorem claim_C7_counterexample :
    ∃ cfg, Cfg.parse_config "A=1; class A \x7b x=5; \x7d;" = .ok cfg ∧
      entryGet ["A", "x"] (CfgEntry.property "A" (CfgValue.long 1)) = none ∧
      cfg.get_entry ["A", "x"] = some (.value (.long 5)) :=
  ⟨_, rfl, rfl, rfl⟩

/-- C7 (amended): `get_entry` scans entries in declaration order and the
first entry whose lookup resolves the whole path wins; an entry whose
lookup fails (even on a name match of the wrong variant) does not stop
the scan; for the document of `class A \x7b class B \x7b x=5; \x7d; \x7d;`,
path [A, B, x] gives integer value 5 and path [A, Z] gives none. -/
theorem claim_C7 {q : List String} {e : CfgEntry} {r : List CfgEntry}
    {o : Nat} {i : String} :
    (∀ x, entryGet q e = some x →
      Cfg.get_entry ⟨o, i, e :: r⟩ q = some x) ∧
    (entryGet q e = none →
      Cfg.get_entry ⟨o, i, e :: r⟩ q = Cfg.get_entry ⟨o, i, r⟩ q) ∧
    (∃ cfg, Cfg.parse_config "class A \x7b class B \x7b x=5; \x7d; \x7d;" = .ok cfg ∧
      cfg.get_entry ["A", "B", "x"] = some (.value (.long 5)) ∧
      cfg.get_entry ["A", "Z"] = none) := by
  refine ⟨fun x hx => ?_, fun hn => ?_, ⟨_, rfl, rfl, rfl⟩⟩
  · simp [Cfg.get_entry, scanFirst, hx]
  · simp [Cfg.get_entry, scanFirst, hn]

/-- C7 witness: the failed lookup of the duplicate-named property does
not stop the scan. -/
theorem claim_C7_witness :
    Cfg.get_entry ⟨0, "", [CfgEntry.property "A" (CfgValue.long 1),
        CfgEntry.cls "A" none [CfgEntry.property "x" (CfgValue.long 5)]]⟩ ["A", "x"] =
      Cfg.get_entry ⟨0, "", [CfgEntry.cls "A" none
        [CfgEntry.property "x" (CfgValue.long 5)]]⟩ ["A", "x"] :=
  (claim_C7 (q := ["A", "x"]) (e := CfgEntry.property "A" (CfgValue.long 1))
    (r := [CfgEntry.cls "A" none [CfgEntry.property "x" (CfgValue.long 5)]])
    (o := 0) (i := "")).2.1 rfl

/-- C8: every document the text path returns (directly through
`parse_config`, or through `read` when the header does not validate) has
enum-table offset 0 and an empty inherited classname. -/
theorem claim_C8 {s : String} {d : List Nat} {cfg cfg2 : Cfg}
    (h : Cfg.parse_config s = .ok cfg)
    (hv : (Cfg.is_valid_rap_bin ⟨d, 0⟩).1 = false)
    (h2 : Cfg.read ⟨d, 0⟩ = .ok cfg2) :
    (cfg.enum_offset = 0 ∧ cfg.inherited_classname = "") ∧
    (cfg2.enum_offset = 0 ∧ cfg2.inherited_classname = "") :=
  ⟨parse_config_defaults h, read_text_defaults hv h2⟩

/-- C8 witness: the text `x=1;` decoded directly and through `read` on
its UTF-8 bytes. -/
theorem claim_C8_witness :
    ((⟨0, "", [CfgEntry.property "x" (CfgValue.long 1)]⟩ : Cfg).enum_offset = 0 ∧
      (⟨0, "", [CfgEntry.property "x" (CfgValue.long 1)]⟩ : Cfg).inherited_classname = "") ∧
    ((⟨0, "", [CfgEntry.property "x" (CfgValue.long 1)]⟩ : Cfg).enum_offset = 0 ∧
      (⟨0, "", [CfgEntry.property "x" (CfgValue.long 1)]⟩ : Cfg).inherited_classname = "") :=
  claim_C8 (s := "x=1;") (d := [120, 61, 49, 59]) rfl rfl rfl

/-- C9: every numeric token the lexer emits carries text that re-parses
as an f32, so the grammar parser's value rule (the source's unguarded
`unwrap`) always has its precondition satisfied and never panics; text
that fails the re-parse was demoted to a string token by the lexer. -/
theorem claim_C9 {s n : String} {q : Span}
    (h : (Token.Num n, q) ∈ (lexer s).1) :
    (parseF32 n).isSome ∧ (numValue n).isSome := by
  have hp := numToken_reparses h
  obtain ⟨fv, hfv⟩ := Option.isSome_iff_exists.mp hp
  refine ⟨hp, ?_⟩
  simp [numValue, hfv]

/-- C9 witness: the numeric token of `x=1;`. -/
theorem claim_C9_witness :
    (parseF32 "1").isSome ∧ (numValue "1").isSome :=
  claim_C9 (s := "x=1;") (q := (2, 3)) (by
    rw [show lexer "x=1;" = ([(Token.Ident "x", (0, 1)), (Token.Ctrl '=', (1, 2)),
      (Token.Num "1", (2, 3)), (Token.Ctrl ';', (3, 4))], []) from rfl]
    simp)

/-- C10: an integer-valued numeric token outside the signed 32-bit range
saturates: `x=3000000000;` gives integer value 2147483647,
`x=-3000000000;` gives -2147483648, and the cast model never leaves the
signed 32-bit range (no wrap, no failure). -/
theorem claim_C10 :
    Cfg.parse_config "x=3000000000;" =
      .ok ⟨0, "", [CfgEntry.property "x" (CfgValue.long 2147483647)]⟩ ∧
    Cfg.parse_config "x=-3000000000;" =
      .ok ⟨0, "", [CfgEntry.property "x" (CfgValue.long (-2147483648))]⟩ ∧
    ∀ fv : Float32, -2147483648 ≤ fv.asI32 ∧ fv.asI32 ≤ 2147483647 := by
  refine ⟨rfl, rfl, fun fv => ?_⟩
  cases fv with
  | finite n d => exact asI32_sat (Int.tdiv n (Int.ofNat d))
  | inf b => cases b <;> constructor <;> norm_num [Float32.asI32]
end Rvff
